import Mathlib

/-!
# Verification of the TradingView CSV formatting and categorization engine

Shallow embedding of the repository's core modules:

* `src/utils/datetime_utils.py`  — Unix-timestamp conversion (`unix_to_datetime`,
  `format_datetime_column`, `is_valid_timestamp`);
* `src/parsers/data_formatter.py` — `DataFormatter` (numeric coercion, column
  categorization, summary statistics);
* `src/parsers/csv_parser.py`    — `TradingViewCSVParser` facade (three data
  tiers, parse/export operations).

Modelling conventions:

* A pandas cell is a tagged value `Cell`: a (rational) number, a text value, or
  the missing marker (NaN/None).  Machine floats are modelled as exact
  rationals; float-specific artefacts (binary rounding error, `inf` cells,
  repr of non-integral floats) are outside the model and noted where relevant.
* A `DataFrame` is a `Table`: an ordered list of named columns.
* Python raising behaviour is modelled with `Except PyError`; the exception
  classes that appear in the source are the constructors of `PyError`.
* Python integer `//` and `%` with positive divisor agree with `Int.ediv` /
  `Int.emod`, which is what `/` and `%` on `ℤ` denote here.
-/

/-- Python exception classes relevant to the embedded code.  `overflowError` is
CPython's `OverflowError`, which `datetime.fromtimestamp` is documented to raise
for timestamps outside the platform `time_t` range; note it is *not* a subclass
of `ValueError`/`TypeError`/`OSError`. -/
inductive PyError where
  | valueError
  | typeError
  | osError
  | overflowError
deriving DecidableEq, Repr

/-- Result of Python `float(...)`: a finite value (modelled exactly as a
rational), an infinity, or NaN. -/
inductive PFloat where
  | finite (q : ℚ)
  | inf
  | ninf
  | nan
deriving DecidableEq, Repr

/-- Dynamically typed values that reach `unix_to_datetime` /
`is_valid_timestamp`: Python ints, floats, strings and `None`. -/
inductive PyVal where
  | pyInt (n : ℤ)
  | pyFloat (f : PFloat)
  | pyStr (s : String)
  | pyNone
deriving DecidableEq, Repr

/-! ## Python `float(string)` parsing -/

/-- Whitespace characters stripped by Python's `float()`. -/
def isSpaceCh (c : Char) : Bool := c == ' ' || c == '\t' || c == '\n' || c == '\r'

/-- Numeric value of a decimal digit character. -/
def digVal (c : Char) : ℕ := c.toNat - 48

/-- Value of a most-significant-first digit list. -/
def digitsToNat (ds : List Char) : ℕ := ds.foldl (fun a c => a * 10 + digVal c) 0

/-- Split a leading run of decimal digits. -/
def splitDigits (cs : List Char) : List Char × List Char :=
  (cs.takeWhile Char.isDigit, cs.dropWhile Char.isDigit)

/-- Scale a rational mantissa by the optional decimal exponent suffix
(`e`/`E`, optional sign, at least one digit, nothing after). -/
def applyExpSuffix (m : ℚ) (cs : List Char) : Option PFloat :=
  match cs with
  | [] => some (.finite m)
  | 'e' :: r | 'E' :: r =>
    let signAndRest : Bool × List Char :=
      match r with
      | '+' :: r2 => (false, r2)
      | '-' :: r2 => (true, r2)
      | r2 => (false, r2)
    let (eds, rest) := splitDigits signAndRest.2
    if eds.isEmpty || !rest.isEmpty then none
    else if signAndRest.1 then some (.finite (m / (10 : ℚ) ^ digitsToNat eds))
    else some (.finite (m * (10 : ℚ) ^ digitsToNat eds))
  | _ => none

/-- Parse an unsigned `float()` body: `inf`/`infinity`/`nan` keywords
(case-insensitive) or a decimal mantissa with optional exponent. -/
def pyFloatParseBody (cs : List Char) : Option PFloat :=
  let lower := cs.map Char.toLower
  if lower = "inf".toList ∨ lower = "infinity".toList then some .inf
  else if lower = "nan".toList then some .nan
  else
    let (ip, r1) := splitDigits cs
    match r1 with
    | '.' :: r2 =>
      let (fp, r3) := splitDigits r2
      if ip.isEmpty && fp.isEmpty then none
      else applyExpSuffix ((digitsToNat ip : ℚ) + (digitsToNat fp : ℚ) / (10 : ℚ) ^ fp.length) r3
    | _ => if ip.isEmpty then none else applyExpSuffix (digitsToNat ip : ℚ) r1

/-- Negation of a parsed float (`float("-nan")` is still NaN). -/
def PFloat.negF : PFloat → PFloat
  | .finite q => .finite (-q)
  | .inf => .ninf
  | .ninf => .inf
  | .nan => .nan

/-- Model of Python `float(s)` for strings: strip whitespace, optional sign,
then the unsigned body.  (Underscore digit separators, hex floats and locale
forms are outside the model.)  `none` models `float()` raising `ValueError`.
Decimal exponents large enough to overflow to `inf` are kept as exact
rationals; every use downstream treats a finite value beyond the `time_t`
range exactly like an infinity, so this does not change any observable. -/
def pyFloatParse (s : String) : Option PFloat :=
  let cs := ((s.toList.dropWhile isSpaceCh).reverse.dropWhile isSpaceCh).reverse
  match cs with
  | '+' :: r => pyFloatParseBody r
  | '-' :: r => (pyFloatParseBody r).map PFloat.negF
  | r => pyFloatParseBody r

/-! ## Proleptic Gregorian calendar (CPython `datetime` internals)

`toOrdinalZ` is the textbook day count used by CPython's `_ymd2ord`
(`_days_before_year` + `_days_before_month` + day); `ord2ymd` is a port of
CPython's `_ord2ymd`.  The round-trip theorem below certifies that `ord2ymd`
inverts `toOrdinalZ`, so the pair computes the proleptic Gregorian calendar. -/

/-- Gregorian leap-year predicate (CPython `_is_leap`). -/
def isLeapZ (y : ℤ) : Bool := (y % 4 == 0 && y % 100 != 0) || y % 400 == 0

/-- Days in a month (CPython `_DAYS_IN_MONTH` plus the leap adjustment). -/
def daysInMonthZ (leap : Bool) (m : ℤ) : ℤ :=
  if m = 2 then (if leap then 29 else 28)
  else if m = 4 ∨ m = 6 ∨ m = 9 ∨ m = 11 then 30
  else 31

/-- Non-leap cumulative days before a month (CPython `_DAYS_BEFORE_MONTH`). -/
def dbmBase (m : ℤ) : ℤ :=
  if m = 1 then 0 else if m = 2 then 31 else if m = 3 then 59 else if m = 4 then 90
  else if m = 5 then 120 else if m = 6 then 151 else if m = 7 then 181
  else if m = 8 then 212 else if m = 9 then 243 else if m = 10 then 273
  else if m = 11 then 304 else 334

/-- Days in the year before the first of month `m` (CPython
`_days_before_month`). -/
def daysBeforeMonthZ (leap : Bool) (m : ℤ) : ℤ :=
  dbmBase m + (if 2 < m ∧ leap = true then 1 else 0)

/-- Days before January 1 of year `y`, counting from ordinal 0 = Dec 31 of
year 0 (CPython `_days_before_year`). -/
def daysBeforeYearZ (y : ℤ) : ℤ :=
  365 * (y - 1) + (y - 1) / 4 - (y - 1) / 100 + (y - 1) / 400

/-- Proleptic Gregorian ordinal of a date, with 0001-01-01 = 1 (CPython
`_ymd2ord`). -/
def toOrdinalZ (y m d : ℤ) : ℤ :=
  daysBeforeYearZ y + daysBeforeMonthZ (isLeapZ y) m + d

/-- Month/day recovery from a day-of-year `n` (0-based), ported from the tail
of CPython `_ord2ymd`: estimate the month as `(n + 50) >> 5`, then correct by
at most one. -/
def monthDay (leap : Bool) (n : ℤ) : ℤ × ℤ :=
  let m0 := (n + 50) / 32
  let prec := dbmBase m0 + (if 2 < m0 ∧ leap = true then 1 else 0)
  if n < prec then
    (m0 - 1, n - (prec - daysInMonthZ leap (m0 - 1)) + 1)
  else
    (m0, n - prec + 1)

/-- Gregorian date from an ordinal, ported from CPython `_ord2ymd`
(400/100/4/1-year div-mod cascade with the `n1 = 4` / `n100 = 4` end-of-cycle
correction). -/
def ord2ymd (nOrd : ℤ) : ℤ × ℤ × ℤ :=
  let n0 := nOrd - 1
  let n400 := n0 / 146097
  let nA := n0 % 146097
  let n100 := nA / 36524
  let nB := nA % 36524
  let n4 := nB / 1461
  let nC := nB % 1461
  let n1 := nC / 365
  let n := nC % 365
  let year := n400 * 400 + 1 + n100 * 100 + n4 * 4 + n1
  if n1 = 4 ∨ n100 = 4 then (year - 1, 12, 31)
  else
    let leap := n1 == 3 && (n4 != 24 || n100 == 3)
    let md := monthDay leap n
    (year, md.1, md.2)

/-- Gregorian date of an epoch-day number (1970-01-01 has ordinal 719163). -/
def civilFromDays (z : ℤ) : ℤ × ℤ × ℤ := ord2ymd (z + 719163)

/-! ## Timestamp conversion (`datetime_utils.py`) -/

/-- Largest value representable in a 64-bit `time_t`. -/
def timeTMax : ℤ := 9223372036854775807

/-- Smallest value representable in a 64-bit `time_t`. -/
def timeTMin : ℤ := -9223372036854775808

/-- A broken-down calendar date-time. -/
structure DT6 where
  year : ℤ
  month : ℤ
  day : ℤ
  hour : ℤ
  minute : ℤ
  second : ℤ
deriving DecidableEq, Repr

/-- Core of `datetime.fromtimestamp` for a finite seconds value and a
fixed-offset zone (`off = 0` is UTC): convert to `time_t` (documented to raise
`OverflowError` when the value does not fit), then to a calendar date-time,
raising when outside the supported calendar range (CPython raises `ValueError`
for years outside 1..9999 and `OSError` when the platform `gmtime`/`localtime`
fails; both are modelled as `valueError` since the embedded callers treat them
identically).  Fractional seconds are truncated here; CPython keeps
microseconds, which the `%S`-style rendering below drops anyway. -/
def fromtimestampCore (off : ℤ) (q : ℚ) : Except PyError DT6 :=
  let s := ⌊q⌋
  if s < timeTMin ∨ timeTMax < s then .error .overflowError
  else
    let t := s + off
    let z := t / 86400
    let sod := t % 86400
    let ymd := civilFromDays z
    if 1 ≤ ymd.1 ∧ ymd.1 ≤ 9999 then
      .ok ⟨ymd.1, ymd.2.1, ymd.2.2, sod / 3600, sod % 3600 / 60, sod % 60⟩
    else .error .valueError

/-- `datetime.fromtimestamp` on a parsed float: NaN raises `ValueError`
("Invalid value NaN"), infinities raise `OverflowError` ("cannot convert float
infinity to integer"). -/
def fromtimestampF (off : ℤ) : PFloat → Except PyError DT6
  | .finite q => fromtimestampCore off q
  | .nan => .error .valueError
  | .inf => .error .overflowError
  | .ninf => .error .overflowError

/-- `datetime.fromtimestamp` on an arbitrary value: non-numeric arguments
raise `TypeError`. -/
def fromtimestampV (off : ℤ) : PyVal → Except PyError DT6
  | .pyInt n => fromtimestampCore off (n : ℚ)
  | .pyFloat f => fromtimestampF off f
  | .pyStr _ => .error .typeError
  | .pyNone => .error .typeError

/-- Digit character for `n % 10`. -/
def digCh (n : ℕ) : Char := Char.ofNat (48 + n % 10)

/-- Two-digit zero-padded rendering (`%m`, `%d`, `%H`, `%M`, `%S`). -/
def pad2 (n : ℕ) : List Char := [digCh (n / 10), digCh n]

/-- Four-digit zero-padded rendering (`%Y`; Python documents `%Y` as
`0001 .. 9999`). -/
def pad4 (n : ℕ) : List Char := [digCh (n / 1000), digCh (n / 100), digCh (n / 10), digCh n]

/-- Character list of `strftime("%Y-%m-%d %H:%M:%S")`. -/
def renderList (y mo d h mi s : ℕ) : List Char :=
  pad4 y ++ '-' :: (pad2 mo ++ '-' :: (pad2 d ++ ' ' :: (pad2 h ++ ':' :: (pad2 mi ++ ':' :: pad2 s))))

/-- Rendering of a broken-down date-time in the fixed layout. -/
def renderDT6 (x : DT6) : String :=
  String.mk (renderList x.year.toNat x.month.toNat x.day.toNat x.hour.toNat x.minute.toNat x.second.toNat)

/-- Decimal rendering of a parsed float, as interpolated by the f-string
diagnostic after the `timestamp = float(timestamp)` rebinding.  Integral
values print with a trailing `.0` as in CPython (for magnitudes below the
scientific-notation threshold); the rendering of non-integral rationals is a
simplification of CPython float repr and is never relied on by a theorem. -/
def pyReprF : PFloat → String
  | .finite q => if q.den = 1 then toString q.num ++ ".0" else toString q.num ++ "/" ++ toString q.den
  | .inf => "inf"
  | .ninf => "-inf"
  | .nan => "nan"

/-- Value interpolated into the `"Invalid timestamp: ..."` diagnostic. -/
def pyRepr : PyVal → String
  | .pyInt n => toString n
  | .pyFloat f => pyReprF f
  | .pyStr s => s
  | .pyNone => "None"

/-- String-to-float conversion step at the top of the `try` block
(`if isinstance(timestamp, str): timestamp = float(timestamp)`); non-string
values pass through unchanged.  An unparseable string raises `ValueError`
before the rebinding, so the original value is kept in that case. -/
def convertStrArg (v : PyVal) : Except PyError PyVal :=
  match v with
  | .pyStr s =>
    match pyFloatParse s with
    | some f => .ok (.pyFloat f)
    | none => .error .valueError
  | w => .ok w

/-- The exception classes named in `except (ValueError, TypeError, OSError)`.
`OverflowError` is not among them. -/
def isCaughtErr (e : PyError) : Bool :=
  match e with
  | .valueError => true
  | .typeError => true
  | .osError => true
  | .overflowError => false

/-- Model of `unix_to_datetime(timestamp, tz=None)` with the default UTC zone:
convert strings with `float()`, call `fromtimestamp(…, tz=utc)`, render with
`strftime('%Y-%m-%d %H:%M:%S')`; on a caught exception return the f-string
diagnostic interpolating the (possibly rebound) `timestamp` variable.  An
uncaught exception propagates as `.error`. -/
def unix_to_datetime (v : PyVal) : Except PyError String :=
  match convertStrArg v with
  | .error e => if isCaughtErr e then .ok ("Invalid timestamp: " ++ pyRepr v) else .error e
  | .ok w =>
    match fromtimestampV 0 w with
    | .ok x => .ok (renderDT6 x)
    | .error e => if isCaughtErr e then .ok ("Invalid timestamp: " ++ pyRepr w) else .error e

/-- Model of `is_valid_timestamp`: same string conversion, but the probe calls
`datetime.fromtimestamp(timestamp)` with *no* zone argument, i.e. the platform
local zone, modelled as a fixed offset `localOff` seconds from UTC. -/
def is_valid_timestamp (localOff : ℤ) (v : PyVal) : Except PyError Bool :=
  match convertStrArg v with
  | .error e => if isCaughtErr e then .ok false else .error e
  | .ok w =>
    match fromtimestampV localOff w with
    | .ok _ => .ok true
    | .error e => if isCaughtErr e then .ok false else .error e

/-! ## Tables (pandas DataFrames) -/

/-- One pandas cell: a number, a text value, or the missing marker (NaN). -/
inductive Cell where
  | num (q : ℚ)
  | text (s : String)
  | missing
deriving DecidableEq, Repr

/-- A named column. -/
structure Col where
  name : String
  cells : List Cell
deriving DecidableEq, Repr

/-- A DataFrame: an ordered list of named columns. -/
abbrev Table := List Col

/-- Column names, in table order. -/
def colNames (t : Table) : List String := t.map Col.name

/-- Row count (all columns share it in a well-formed table). -/
def nRows (t : Table) : ℕ :=
  match t with
  | [] => 0
  | c :: _ => c.cells.length

/-- Well-formedness: every column has the common row count. -/
def Aligned (t : Table) : Prop := ∀ c ∈ t, c.cells.length = nRows t

/-- Cells of the (first) column with the given name. -/
def getColCells (t : Table) (n : String) : List Cell :=
  ((t.find? (fun c => c.name == n)).map Col.cells).getD []

/-- Model of `df[name] = cells`: overwrite the column in place if the name
exists, otherwise append it as the last column. -/
def setCol (t : Table) (n : String) (cells : List Cell) : Table :=
  if t.any (fun c => c.name == n) then
    t.map (fun c => if c.name == n then ⟨n, cells⟩ else c)
  else t ++ [⟨n, cells⟩]

/-- Model of `df[[n] + [c for c in df.columns if c != n]]`: move column `n`
to the front, all other columns keeping their relative order. -/
def moveToFront (n : String) (t : Table) : Table :=
  t.filter (fun c => c.name == n) ++ t.filter (fun c => !(c.name == n))

/-! ## DataFormatter (`data_formatter.py`) -/

/-- Round-half-to-even to an integer (numpy/pandas `round` tie rule; binary
floating-point representation error is outside the model). -/
def halfEvenZ (x : ℚ) : ℤ :=
  let n := ⌊x⌋
  if x - n < 1/2 then n
  else if (1 : ℚ)/2 < x - n then n + 1
  else if n % 2 = 0 then n else n + 1

/-- Model of `Series.round(dp)` on one value. -/
def roundHalfEven (dp : ℕ) (q : ℚ) : ℚ := (halfEvenZ (q * 10 ^ dp) : ℚ) / 10 ^ dp

/-- Model of `pd.to_numeric(… , errors='coerce')` on one cell: numbers pass
through, NaN stays NaN, text is parsed with the numeric parser, an unparseable
text cell becomes NaN.  (A text cell spelling an infinity would become an
infinite float, which the rational cell model cannot represent; it is mapped
to the missing marker and never exercised by a theorem.) -/
def toNumericCell (c : Cell) : Cell :=
  match c with
  | .num q => .num q
  | .missing => .missing
  | .text s =>
    match pyFloatParse s with
    | some (.finite q) => .num q
    | _ => .missing

/-- Rounding step of `_format_numeric_column`; NaN cells are unaffected. -/
def roundCellHalfEven (dp : ℕ) : Cell → Cell
  | .num q => .num (roundHalfEven dp q)
  | c => c

/-- Model of `DataFormatter._format_numeric_column`: `pd.to_numeric(series,
errors='coerce')` followed by `.round(decimal_places)`.  With `errors='coerce'`
the conversion of scalar cells never raises, so the `except` fallback that
would return the original series is unreachable and the function is the
composition of the two per-cell maps. -/
def format_numeric_column (dp : ℕ) (cells : List Cell) : List Cell :=
  (cells.map toNumericCell).map (roundCellHalfEven dp)

/-- Argument passed to `unix_to_datetime` for one cell of the `time` column
when it is iterated: numeric cells arrive as Python ints/floats, text cells as
strings, missing cells as float NaN. -/
def cellOfTime : Cell → PyVal
  | .num q => if q.den = 1 then .pyInt q.num else .pyFloat (.finite q)
  | .text s => .pyStr s
  | .missing => .pyFloat .nan

/-- Left-to-right element-wise application, propagating the first uncaught
exception (Python list-comprehension order). -/
def mapExcept {α β ε : Type} (f : α → Except ε β) : List α → Except ε (List β)
  | [] => .ok []
  | a :: as =>
    match f a with
    | .error e => .error e
    | .ok b =>
      match mapExcept f as with
      | .error e => .error e
      | .ok bs => .ok (b :: bs)

/-- Model of `format_datetime_column`: element-wise `unix_to_datetime` over the
series; an uncaught exception from any element aborts the whole conversion. -/
def format_datetime_column (cells : List Cell) : Except PyError (List String) :=
  mapExcept (fun c => unix_to_datetime (cellOfTime c)) cells

/-- Numeric-formatting pass of `format_dataframe`: every column except `time`
and `datetime` goes through `_format_numeric_column`. -/
def numericPass (dp : ℕ) (t : Table) : Table :=
  t.map (fun c =>
    if c.name == "time" || c.name == "datetime" then c
    else ⟨c.name, format_numeric_column dp c.cells⟩)

/-- Model of `DataFormatter.format_dataframe`: copy, synthesize/overwrite the
`datetime` column from `time` when a `time` column exists and move it to the
front, then apply the numeric pass. -/
def format_dataframe (dp : ℕ) (df : Table) : Except PyError Table :=
  if df.any (fun c => c.name == "time") then
    match format_datetime_column (getColCells df "time") with
    | .error e => .error e
    | .ok dts =>
      .ok (numericPass dp (moveToFront "datetime" (setCol df "datetime" (dts.map Cell.text))))
  else .ok (numericPass dp df)

/-! ### Column categorization -/

/-- The fixed category table (`DataFormatter.COLUMN_CATEGORIES`), in
declaration order. -/
def COLUMN_CATEGORIES : List (String × List String) :=
  [("OHLC", ["time", "open", "high", "low", "close"]),
   ("LuxAlgo_Connector", ["LUCID Connector"]),
   ("Signals", ["Bullish", "Bullish+", "Bearish", "Bearish+", "Bullish Exit", "Bearish Exit"]),
   ("Metrics", ["Trend Strength", "Take Profit", "Stop Loss", "Bar Color Value"]),
   ("Indicators", ["Trend Tracer", "Trend Catcher", "Smart Trail", "Smart Trail Extremity"]),
   ("Bands", ["RZ R3 Band", "RZ R2 Band", "RZ R1 Band", "Reversal Zones Average",
              "RZ S1 Band", "RZ S2 Band", "RZ S3 Band"]),
   ("Neo", ["Neo Lead", "Neo Lag"]),
   ("Alerts", ["Custom Alert Condition Highlighter", "Alert Scripting Condition Highlighter"]),
   ("Other", ["@valuewhen"])]

/-- Lower-cased key of a string (`str.lower()`), computed character-wise. -/
def lcKey (s : String) : List Char := s.toList.map Char.toLower

/-- Case-insensitive exact name match (`c.lower() == col.lower()`). -/
def lcEq (a b : String) : Bool := lcKey a == lcKey b

/-- Inner loop of `organize_by_category` for one category: for each pattern in
order, collect the not-yet-claimed table columns whose name matches
case-insensitively, claiming them as they are matched. -/
def claimPats (cols : List String) : List String → List String → List String × List String
  | [], used => ([], used)
  | p :: ps, used =>
    let m := cols.filter (fun c => lcEq c p && !used.contains c)
    let r := claimPats cols ps (used ++ m)
    (m ++ r.1, r.2)

/-- Category loop of `organize_by_category` at the level of column names:
categories with no matched column are omitted; the `datetime` column is
prepended to the OHLC entry when present in the table. -/
def organizeNamesAux (cols : List String) (hasDT : Bool) :
    List (String × List String) → List String → List (String × List String) × List String
  | [], used => ([], used)
  | (label, pats) :: cats, used =>
    let m := claimPats cols pats used
    let rest := organizeNamesAux cols hasDT cats m.2
    if m.1.isEmpty then rest
    else
      let entry := if label == "OHLC" && hasDT then "datetime" :: m.1 else m.1
      ((label, entry) :: rest.1, rest.2)

/-- Name-level model of `organize_by_category`: run all categories, then
collect the unclaimed columns (excluding `datetime`) into `Other`, appending
them when an explicit `Other` entry already exists. -/
def organize_names (cols : List String) : List (String × List String) :=
  let hasDT := cols.contains "datetime"
  let r := organizeNamesAux cols hasDT COLUMN_CATEGORIES []
  let remaining := cols.filter (fun c => !r.2.contains c && c != "datetime")
  if remaining.isEmpty then r.1
  else if (r.1.map Prod.fst).contains "Other" then
    r.1.map (fun p => if p.1 == "Other" then (p.1, p.2 ++ remaining) else p)
  else r.1 ++ [("Other", remaining)]

/-- Sub-table selection `df[names]`, in the given name order. -/
def selectCols (df : Table) (ns : List String) : Table :=
  ns.filterMap (fun n => df.find? (fun c => c.name == n))

/-- Model of `DataFormatter.organize_by_category`: the name-level organization
realized as sub-tables of `df`. -/
def organize_by_category (df : Table) : List (String × Table) :=
  (organize_names (colNames df)).map (fun p => (p.1, selectCols df p.2))

/-! ### Summary statistics -/

/-- Missing-cell test (`Series.isna`). -/
def cellIsNa : Cell → Bool
  | .missing => true
  | _ => false

/-- A cell accepted by `pd.to_numeric(…, errors='raise')`: a number, the
missing marker, or text that parses numerically. -/
def cellNumericOk (c : Cell) : Bool :=
  match c with
  | .num _ => true
  | .missing => true
  | .text s =>
    match pyFloatParse s with
    | some _ => true
    | none => false

/-- Result shape of `get_summary_stats`. -/
structure SummaryStats where
  total_rows : ℕ
  total_columns : ℕ
  date_range : Option (Option String × Option String)
  missing_data : List (String × ℕ × ℚ)
  numeric_columns : List String
deriving Repr

/-- String content of a cell as read back from the `datetime` column. -/
def cellText : Cell → Option String
  | .text s => some s
  | _ => none

/-- Model of `DataFormatter.get_summary_stats`: row/column counts, first/last
`datetime` values, per-column missing counts with percentage (only for columns
with at least one missing cell), and the columns on which a strict
`pd.to_numeric` succeeds. -/
def get_summary_stats (df : Table) : SummaryStats :=
  { total_rows := nRows df
    total_columns := df.length
    date_range :=
      if df.any (fun c => c.name == "datetime") then
        some (if 0 < nRows df then
                ((getColCells df "datetime").head?.bind cellText,
                 (getColCells df "datetime").getLast?.bind cellText)
              else (none, none))
      else none
    missing_data :=
      df.filterMap (fun c =>
        let mc := (c.cells.filter cellIsNa).length
        if 0 < mc then some (c.name, mc, (mc : ℚ) / (nRows df : ℚ) * 100) else none)
    numeric_columns :=
      (df.filter (fun c =>
        !(c.name == "time" || c.name == "datetime") && c.cells.all cellNumericOk)).map Col.name }

/-! ### Object-level model of `format_dataframe` (for the frame condition)

The Python function receives a reference to the caller's DataFrame object.  To
state that the input object is not mutated, the function body is re-traced
over an explicit heap of DataFrame objects: `df.copy()` allocates a deep copy,
`df_formatted[col] = …` writes the object in place, and
`df_formatted = df_formatted[cols]` allocates a fresh selection. -/

/-- A heap of DataFrame objects; references are list indices. -/
abbrev Heap := List Table

/-- Dereference (junk on a dangling reference). -/
def readT (h : Heap) (r : ℕ) : Table := h.getD r []

/-- In-place update of the object at `r`. -/
def writeT (h : Heap) (r : ℕ) (t : Table) : Heap := h.set r t

/-- Allocation of a fresh object. -/
def allocT (h : Heap) (t : Table) : Heap × ℕ := (h ++ [t], h.length)

/-- Heap-level trace of `format_dataframe(df)`: `df_formatted = df.copy()` is
a fresh deep copy; the `datetime` assignment mutates the copy; the column
reordering rebinds `df_formatted` to a fresh selection object; the numeric
loop mutates that object column by column (collapsed into one write, as the
writes all target the same object).  Returns the final heap and the reference
returned to the caller. -/
def format_dataframe_prog (dp : ℕ) (h : Heap) (dfRef : ℕ) : Heap × Except PyError ℕ :=
  let df := readT h dfRef
  let a1 := allocT h df
  if df.any (fun c => c.name == "time") then
    match format_datetime_column (getColCells (readT a1.1 a1.2) "time") with
    | .error e => (a1.1, .error e)
    | .ok dts =>
      let h2 := writeT a1.1 a1.2 (setCol (readT a1.1 a1.2) "datetime" (dts.map Cell.text))
      let a2 := allocT h2 (moveToFront "datetime" (readT h2 a1.2))
      let h3 := writeT a2.1 a2.2 (numericPass dp (readT a2.1 a2.2))
      (h3, .ok a2.2)
  else
    let h2 := writeT a1.1 a1.2 (numericPass dp (readT a1.1 a1.2))
    (h2, .ok a1.2)

/-! ## Parser facade (`csv_parser.py`) -/

/-- The three data tiers held by `TradingViewCSVParser`.  `Empty` is the state
in which all three are `none`. -/
structure ParserState where
  raw_data : Option Table
  formatted_data : Option Table
  organized_data : Option (List (String × Table))
deriving Repr

/-- The freshly constructed facade. -/
def initState : ParserState := ⟨none, none, none⟩

/-- Outcome of the external read (`Path.exists` check plus `pd.read_csv`):
either a failure (missing file, decode error, pandas `EmptyDataError` on a
zero-byte file) or the DataFrame that was read. -/
inductive ReadResult where
  | err (msg : String)
  | ok (t : Table)

/-- Model of `DataFrame.empty`: some axis has length zero. -/
def tableEmpty (t : Table) : Bool := t.all (fun c => c.cells.isEmpty)

/-- Model of `TradingViewCSVParser.parse_csv`: the file read happens first;
`self.raw_data` is assigned as soon as the read succeeds, *before* the
emptiness check; formatting and categorization follow, and any exception is
re-raised wrapped in a generic message. -/
def parse_csv (dp : ℕ) (st : ParserState) (r : ReadResult) :
    ParserState × Except String Table :=
  match r with
  | .err m => (st, .error ("Error parsing CSV file: " ++ m))
  | .ok t =>
    let st1 := { st with raw_data := some t }
    if tableEmpty t then
      (st1, .error "Error parsing CSV file: CSV file is empty")
    else
      match format_dataframe dp t with
      | .error _ => (st1, .error "Error parsing CSV file: formatting error")
      | .ok f =>
        let st2 := { st1 with formatted_data := some f,
                              organized_data := some (organize_by_category f) }
        (st2, .ok f)

/-- Export target selection shared by `export_to_csv` and `export_to_json`:
`if category and self.organized_data and category in self.organized_data`.
Note Python truthiness: an empty-string category or an empty organized dict
falls through to the full table. -/
def pickExport (f : Table) (org : Option (List (String × Table))) (cat : Option String) : Table :=
  match cat, org with
  | some c, some o =>
    if c = "" then f
    else if o = [] then f
    else
      match o.find? (fun p => p.1 == c) with
      | some p => p.2
      | none => f
  | _, _ => f

/-- Model of `export_to_csv` up to the boundary write: the table serialized to
the output file, or the `"No data to export"` error before any parse. -/
def export_to_csv (st : ParserState) (cat : Option String) : Except String Table :=
  match st.formatted_data with
  | none => .error "No data to export. Parse CSV first."
  | some f => .ok (pickExport f st.organized_data cat)

/-- Model of `export_to_json` up to the boundary write: the same selection
logic; the JSON record serialization itself is boundary I/O. -/
def export_to_json (st : ParserState) (cat : Option String) : Except String Table :=
  match st.formatted_data with
  | none => .error "No data to export. Parse CSV first."
  | some f => .ok (pickExport f st.organized_data cat)

/-! ## Layout predicate

Decidable statement of the fixed textual layout `YYYY-MM-DD HH:MM:SS`
(zero-padded, four-digit year, 24-hour clock), used to state the claims about
formatted-versus-diagnostic output. -/

/-- Check that a character list has exactly the 19-character layout
`YYYY-MM-DD HH:MM:SS`. -/
def isLayoutChars (l : List Char) : Bool :=
  l.length == 19 && (l.getD 0 ' ').isDigit && (l.getD 1 ' ').isDigit && (l.getD 2 ' ').isDigit
    && (l.getD 3 ' ').isDigit && l.getD 4 ' ' == '-' && (l.getD 5 ' ').isDigit
    && (l.getD 6 ' ').isDigit && l.getD 7 ' ' == '-' && (l.getD 8 ' ').isDigit
    && (l.getD 9 ' ').isDigit && l.getD 10 ' ' == ' ' && (l.getD 11 ' ').isDigit
    && (l.getD 12 ' ').isDigit && l.getD 13 ' ' == ':' && (l.getD 14 ' ').isDigit
    && (l.getD 15 ' ').isDigit && l.getD 16 ' ' == ':' && (l.getD 17 ' ').isDigit
    && (l.getD 18 ' ').isDigit

/-- Layout check on a string. -/
def isLayoutStr (s : String) : Bool := isLayoutChars s.toList

/-! ## Theorems -/

/-- Claim C1 counterexample: for the column `["1","2","x"]` the formatter does
*not* return the column unchanged; `pd.to_numeric(errors='coerce')` converts
cell-by-cell, turning `"1"`, `"2"` into numbers and `"x"` into the missing
marker. -/
theorem claim_C1_counterexample :
    format_numeric_column 4 [Cell.text "1", Cell.text "2", Cell.text "x"]
        = [Cell.num 1, Cell.num 2, Cell.missing] ∧
    format_numeric_column 4 [Cell.text "1", Cell.text "2", Cell.text "x"]
        ≠ [Cell.text "1", Cell.text "2", Cell.text "x"] := by
  have r1 : roundHalfEven 4 1 = 1 := by norm_num [roundHalfEven, halfEvenZ]
  have r2 : roundHalfEven 4 2 = 2 := by norm_num [roundHalfEven, halfEvenZ]
  have p1 : toNumericCell (Cell.text "1") = Cell.num 1 := rfl
  have p2 : toNumericCell (Cell.text "2") = Cell.num 2 := rfl
  have px : toNumericCell (Cell.text "x") = Cell.missing := rfl
  constructor
  · simp [format_numeric_column, p1, p2, px, roundCellHalfEven, r1, r2]
  · simp [format_numeric_column, px, roundCellHalfEven]

/-- Claim C1 (amended): numeric coercion by `_format_numeric_column` is
per-cell, not all-or-nothing: the output column has the input's length, a
numeric cell is rounded in place, a missing cell stays missing, a text cell
that parses as a finite number becomes that number rounded, and a text cell
that does not parse becomes the missing marker — a column containing an
unparseable cell is never returned unchanged. -/
theorem claim_C1_amended (dp : ℕ) (cells : List Cell) (i : ℕ) :
    (format_numeric_column dp cells).length = cells.length ∧
    (∀ q, cells.getD i Cell.missing = Cell.num q →
      (format_numeric_column dp cells).getD i Cell.missing = Cell.num (roundHalfEven dp q)) ∧
    (cells.getD i Cell.missing = Cell.missing →
      (format_numeric_column dp cells).getD i Cell.missing = Cell.missing) ∧
    (∀ s q, cells.getD i Cell.missing = Cell.text s →
      pyFloatParse s = some (PFloat.finite q) →
      (format_numeric_column dp cells).getD i Cell.missing = Cell.num (roundHalfEven dp q)) ∧
    (∀ s, cells.getD i Cell.missing = Cell.text s → pyFloatParse s = none →
      (format_numeric_column dp cells).getD i Cell.missing = Cell.missing) := by
  refine ⟨by simp [format_numeric_column], ?_⟩
  induction cells generalizing i with
  | nil =>
    refine ⟨?_, ?_, ?_, ?_⟩ <;> simp [format_numeric_column]
  | cons c cs ih =>
    cases i with
    | zero =>
      refine ⟨?_, ?_, ?_, ?_⟩ <;>
        simp only [format_numeric_column, List.map_cons, List.getD_cons_zero]
      · rintro q rfl; simp [toNumericCell, roundCellHalfEven]
      · rintro rfl; simp [toNumericCell, roundCellHalfEven]
      · rintro s q rfl hp; simp [toNumericCell, hp, roundCellHalfEven]
      · rintro s rfl hp; simp [toNumericCell, hp, roundCellHalfEven]
    | succ j =>
      have h := ih j
      refine ⟨?_, ?_, ?_, ?_⟩ <;>
        simp only [format_numeric_column, List.map_cons, List.getD_cons_succ] <;>
        simp only [format_numeric_column] at h
      · exact h.1
      · exact h.2.1
      · exact h.2.2.1
      · exact h.2.2.2

/-- Claim C1 witness: the amended theorem instantiated on concrete cells — a
numeric cell is rounded, a missing cell stays missing. -/
theorem claim_C1_witness :
    (format_numeric_column 0 [Cell.num (5/2)]).getD 0 Cell.missing
        = Cell.num (roundHalfEven 0 (5/2)) ∧
    (format_numeric_column 4 [Cell.text "3.5", Cell.missing]).getD 1 Cell.missing
        = Cell.missing :=
  ⟨(claim_C1_amended 0 [Cell.num (5/2)] 0).2.1 (5/2) rfl,
   (claim_C1_amended 4 [Cell.text "3.5", Cell.missing] 1).2.2.1 rfl⟩

/-- Claim C2 counterexample: parsing a header-only CSV (a successful read of a
DataFrame with a column and no rows) fails with the emptiness error, yet
mutates the raw tier: starting from the `Empty` state, `raw_data` has been
assigned before the emptiness check. -/
theorem claim_C2_counterexample :
    (parse_csv 4 initState (.ok [⟨"time", []⟩])).1.raw_data ≠ initState.raw_data ∧
    (parse_csv 4 initState (.ok [⟨"time", []⟩])).2 =
      .error "Error parsing CSV file: CSV file is empty" := by
  constructor
  · intro h
    cases h
  · rfl

/-- Claim C2 (amended): a parse failure that happens before the file read
completes leaves the facade unchanged; once the read succeeds, `raw_data` is
replaced immediately, so a subsequent failure (empty input, formatting error)
leaves the raw tier holding the newly read table while the formatted and
organized tiers keep their previous values; on success all three tiers are
replaced. -/
theorem claim_C2_amended (dp : ℕ) (st : ParserState) (r : ReadResult) :
    (∀ m, r = .err m →
      parse_csv dp st r = (st, .error ("Error parsing CSV file: " ++ m))) ∧
    (∀ t, r = .ok t →
      (parse_csv dp st r).1.raw_data = some t ∧
      ((∃ m, (parse_csv dp st r).2 = .error m) →
        (parse_csv dp st r).1.formatted_data = st.formatted_data ∧
        (parse_csv dp st r).1.organized_data = st.organized_data) ∧
      (∀ f, (parse_csv dp st r).2 = .ok f →
        (parse_csv dp st r).1.formatted_data = some f ∧
        (parse_csv dp st r).1.organized_data = some (organize_by_category f))) := by
  constructor
  · rintro m rfl; rfl
  · rintro t rfl
    by_cases hE : tableEmpty t = true
    · simp [parse_csv, hE]
    · rcases hfmt : format_dataframe dp t with e | f
      · simp [parse_csv, hE, hfmt]
      · simp [parse_csv, hE, hfmt]

/-- Claim C2 witness: the amended theorem instantiated on a successful
one-column parse from the `Empty` state. -/
theorem claim_C2_witness :
    (parse_csv 4 initState (.ok [⟨"open", [Cell.num 1]⟩])).1.raw_data
        = some [⟨"open", [Cell.num 1]⟩] :=
  ((claim_C2_amended 4 initState (.ok [⟨"open", [Cell.num 1]⟩])).2
    [⟨"open", [Cell.num 1]⟩] rfl).1

/-- Claim C7: on a zero-row table the Summary Engine reports `total_rows = 0`
and an empty missing-data map; moreover a missing-data entry (the only place a
percentage is computed) only ever exists for a column with at least one
missing cell, in a table with at least one row — so the `count / len(df)`
division never has a zero divisor. -/
theorem claim_C7 (df : Table) (hal : Aligned df) :
    (nRows df = 0 →
      (get_summary_stats df).total_rows = 0 ∧ (get_summary_stats df).missing_data = []) ∧
    (∀ p ∈ (get_summary_stats df).missing_data, 0 < p.2.1 ∧ 0 < nRows df) := by
  constructor
  · intro h0
    refine ⟨h0, ?_⟩
    apply List.filterMap_eq_nil_iff.mpr
    intro c hc
    have hz : c.cells.length = 0 := (hal c hc).trans h0
    have hcells : c.cells = [] := List.length_eq_zero.mp hz
    simp [hcells]
  · intro p hp
    simp only [get_summary_stats] at hp
    rcases List.mem_filterMap.mp hp with ⟨c, hc, hfc⟩
    by_cases hpos : 0 < (c.cells.filter cellIsNa).length
    · rw [if_pos hpos] at hfc
      cases hfc
      have h1 : (c.cells.filter cellIsNa).length ≤ c.cells.length := List.length_filter_le _ _
      have h2 := hal c hc
      exact ⟨hpos, by omega⟩
    · rw [if_neg hpos] at hfc
      cases hfc

/-- Claim C7 witness: a concrete two-column zero-row table. -/
theorem claim_C7_witness :
    (get_summary_stats [⟨"a", []⟩, ⟨"b", []⟩]).total_rows = 0 ∧
    (get_summary_stats [⟨"a", []⟩, ⟨"b", []⟩]).missing_data = [] :=
  (claim_C7 [⟨"a", []⟩, ⟨"b", []⟩]
    (by intro c hc
        rcases List.mem_cons.mp hc with rfl | hc2
        · rfl
        rcases List.mem_cons.mp hc2 with rfl | h
        · rfl
        · cases h)).1 rfl

/-- Claim C8: after a successful parse (formatted and organized tiers set),
requesting an export for a category name that is not a key of the organized
mapping makes both `export_to_csv` and `export_to_json` silently serialize the
full formatted table instead of signalling an error. -/
theorem claim_C8 (st : ParserState) (f : Table) (o : List (String × Table)) (c : String)
    (hf : st.formatted_data = some f) (ho : st.organized_data = some o)
    (hc : ∀ p ∈ o, p.1 ≠ c) :
    export_to_csv st (some c) = .ok f ∧ export_to_json st (some c) = .ok f := by
  have hfind : o.find? (fun p => p.1 == c) = none := by
    apply List.find?_eq_none.mpr
    intro p hp
    simpa using hc p hp
  have hpick : pickExport f (some o) (some c) = f := by
    simp only [pickExport]
    split
    · rfl
    · split
      · rfl
      · rw [hfind]
  constructor <;> simp [export_to_csv, export_to_json, hf, ho, hpick]

/-- Claim C8 witness: a concrete parsed state and the unknown category
`"Nope"`. -/
theorem claim_C8_witness :
    export_to_csv ⟨some [], some [⟨"t", [Cell.num 1]⟩], some [("OHLC", [⟨"t", [Cell.num 1]⟩])]⟩
        (some "Nope") = .ok [⟨"t", [Cell.num 1]⟩] ∧
    export_to_json ⟨some [], some [⟨"t", [Cell.num 1]⟩], some [("OHLC", [⟨"t", [Cell.num 1]⟩])]⟩
        (some "Nope") = .ok [⟨"t", [Cell.num 1]⟩] :=
  claim_C8 ⟨some [], some [⟨"t", [Cell.num 1]⟩], some [("OHLC", [⟨"t", [Cell.num 1]⟩])]⟩
    [⟨"t", [Cell.num 1]⟩] [("OHLC", [⟨"t", [Cell.num 1]⟩])] "Nope" rfl rfl
    (by intro p hp
        rcases List.mem_cons.mp hp with rfl | h
        · simp
        · cases h)

/-! ### Structural lemmas for the Table Formatter -/

/-- Helper: a successful `mapExcept` preserves length. -/
theorem mapExcept_ok_length {α β ε : Type} (f : α → Except ε β) :
    ∀ (l : List α) (out : List β), mapExcept f l = .ok out → out.length = l.length := by
  intro l
  induction l with
  | nil => intro out h; cases h; rfl
  | cons a as ih =>
    intro out h
    simp only [mapExcept] at h
    rcases hfa : f a with e | b <;> rw [hfa] at h
    · cases h
    · rcases hm : mapExcept f as with e | bs <;> rw [hm] at h
      · cases h
      · cases h; simp [ih bs hm]

/-- Helper: `any` over a name test is membership in the column names. -/
theorem any_name_iff (t : Table) (n : String) :
    t.any (fun c => c.name == n) = true ↔ n ∈ colNames t := by
  rw [List.any_eq_true]
  constructor
  · rintro ⟨c, hc, hpc⟩
    exact List.mem_map.mpr ⟨c, hc, (beq_iff_eq.mp hpc).symm ▸ rfl⟩
  · intro h
    rcases List.mem_map.mp h with ⟨c, hc, rfl⟩
    exact ⟨c, hc, by simp⟩

/-- Helper: length of `setCol`. -/
theorem length_setCol (t : Table) (n : String) (cells : List Cell) :
    (setCol t n cells).length
      = if t.any (fun c => c.name == n) then t.length else t.length + 1 := by
  simp only [setCol]
  split <;> simp

/-- Helper: a column of `setCol t n cells` is an untouched column of `t` or
the assigned column. -/
theorem mem_setCol {t : Table} {n : String} {cells : List Cell} {c : Col}
    (h : c ∈ setCol t n cells) : c ∈ t ∨ c = ⟨n, cells⟩ := by
  simp only [setCol] at h
  split at h
  · rcases List.mem_map.mp h with ⟨c0, hc0, hfc⟩
    by_cases hb : c0.name == n
    · rw [if_pos hb] at hfc
      right; exact hfc.symm
    · rw [if_neg hb] at hfc
      left; exact hfc ▸ hc0
  · rcases List.mem_append.mp h with h1 | h1
    · left; exact h1
    · right
      rcases List.mem_singleton.mp h1 with rfl
      rfl

/-- Helper: length of `moveToFront`. -/
theorem length_moveToFront (n : String) (t : Table) :
    (moveToFront n t).length = t.length := by
  have := (List.filter_append_perm (fun c => c.name == n) t).length_eq
  simpa [moveToFront] using this

/-- Helper: columns of `moveToFront` come from the table. -/
theorem mem_moveToFront {n : String} {t : Table} {c : Col}
    (h : c ∈ moveToFront n t) : c ∈ t := by
  rcases List.mem_append.mp h with h1 | h1 <;> exact List.mem_of_mem_filter h1

/-- Helper: length of the numeric pass. -/
theorem length_numericPass (dp : ℕ) (t : Table) :
    (numericPass dp t).length = t.length := by
  simp [numericPass]

/-- Helper: each column of the numeric pass has the length of a source
column. -/
theorem mem_numericPass {dp : ℕ} {t : Table} {c2 : Col}
    (h : c2 ∈ numericPass dp t) : ∃ c ∈ t, c2.cells.length = c.cells.length := by
  rcases List.mem_map.mp h with ⟨c, hc, rfl⟩
  refine ⟨c, hc, ?_⟩
  split <;> simp [format_numeric_column]

/-- Helper: the row count of a nonempty table all of whose columns have
length `k`. -/
theorem nRows_eq_of_mem_all {t : Table} {k : ℕ} (hne : t ≠ [])
    (h : ∀ c ∈ t, c.cells.length = k) : nRows t = k := by
  cases t with
  | nil => cases hne rfl
  | cons c cs => exact h c (List.mem_cons_self _ _)

/-- Helper: in an aligned table with a `time` column, that column has `nRows`
cells. -/
theorem getColCells_time_length {df : Table} (hal : Aligned df)
    (h : df.any (fun c => c.name == "time") = true) :
    (getColCells df "time").length = nRows df := by
  rcases hf : df.find? (fun c => c.name == "time") with _ | c
  · rcases List.any_eq_true.mp h with ⟨c, hc, hpc⟩
    have := List.find?_eq_none.mp hf c hc
    simp_all
  · have hmem := List.mem_of_find?_eq_some hf
    simp only [getColCells, hf, Option.map_some, Option.getD_some]
    exact hal c hmem

/-- Claim C5 counterexample: an input that already has both a `time` and a
`datetime` column.  `format_dataframe` overwrites the existing `datetime`
column in place, so the output has the same column count as the input even
though a `time` column exists — the claimed "+1 exactly when time exists"
fails. -/
theorem claim_C5_counterexample :
    format_dataframe 4 [⟨"time", [Cell.num 0]⟩, ⟨"datetime", [Cell.text "x"]⟩]
      = .ok [⟨"datetime", [Cell.text "1970-01-01 00:00:00"]⟩, ⟨"time", [Cell.num 0]⟩] ∧
    "time" ∈ colNames [⟨"time", [Cell.num 0]⟩, ⟨"datetime", [Cell.text "x"]⟩] ∧
    ([⟨"datetime", [Cell.text "1970-01-01 00:00:00"]⟩, ⟨"time", [Cell.num 0]⟩] : Table).length
      = ([⟨"time", [Cell.num 0]⟩, ⟨"datetime", [Cell.text "x"]⟩] : Table).length := by
  refine ⟨rfl, ?_, rfl⟩
  simp [colNames]

/-- Claim C5 (amended): for every aligned input table, a successful
`format_dataframe` preserves the row count, and the output column count is the
input's plus one exactly when a `time` column exists and no `datetime` column
already exists (when both exist the `datetime` column is overwritten in place,
leaving the count unchanged; with no `time` column the count is unchanged). -/
theorem claim_C5_amended (dp : ℕ) (df out : Table) (hal : Aligned df)
    (hok : format_dataframe dp df = .ok out) :
    nRows out = nRows df ∧
    out.length = df.length
      + (if "time" ∈ colNames df ∧ "datetime" ∉ colNames df then 1 else 0) := by
  by_cases hT : df.any (fun c => c.name == "time") = true
  · rw [format_dataframe, if_pos hT] at hok
    rcases hdt : format_datetime_column (getColCells df "time") with e | dts <;>
      rw [hdt] at hok
    · cases hok
    · cases hok
      have hdl : dts.length = nRows df :=
        (mapExcept_ok_length _ _ _ hdt).trans (getColCells_time_length hal hT)
      have hTmem : "time" ∈ colNames df := (any_name_iff df "time").mp hT
      have hdfne : df ≠ [] := by
        rcases List.mem_map.mp hTmem with ⟨c, hc, _⟩
        exact List.ne_nil_of_mem hc
      constructor
      · -- row count
        have hlen : ∀ c2 ∈ numericPass dp
            (moveToFront "datetime" (setCol df "datetime" (dts.map Cell.text))),
            c2.cells.length = nRows df := by
          intro c2 hc2
          rcases mem_numericPass hc2 with ⟨c1, hc1, he⟩
          rcases mem_setCol (mem_moveToFront hc1) with hmem | rfl
          · exact he.trans (hal c1 hmem)
          · simpa [he] using hdl
        have hne : numericPass dp
            (moveToFront "datetime" (setCol df "datetime" (dts.map Cell.text))) ≠ [] := by
          apply List.length_pos.mp
          rw [length_numericPass, length_moveToFront, length_setCol]
          split <;> simp [List.length_pos, hdfne]
        exact nRows_eq_of_mem_all hne hlen
      · -- column count
        rw [length_numericPass, length_moveToFront, length_setCol]
        by_cases hD : df.any (fun c => c.name == "datetime") = true
        · rw [if_pos hD, if_neg]
          · simp
          · rw [not_and_or]
            right
            simp [(any_name_iff df "datetime").mp hD]
        · rw [if_neg hD, if_pos]
          exact ⟨hTmem, fun hmem => hD ((any_name_iff df "datetime").mpr hmem)⟩
  · rw [format_dataframe, if_neg hT] at hok
    cases hok
    constructor
    · rcases List.eq_nil_or_concat df with rfl | _
      · rfl
      · have hdfne : df ≠ [] := by
          rintro rfl
          simp_all
        apply nRows_eq_of_mem_all
        · apply List.length_pos.mp
          rw [length_numericPass]
          exact List.length_pos.mpr hdfne
        · intro c2 hc2
          rcases mem_numericPass hc2 with ⟨c1, hc1, he⟩
          exact he.trans (hal c1 hc1)
    · rw [length_numericPass, if_neg]
      · simp
      · rintro ⟨hTmem, -⟩
        exact hT ((any_name_iff df "time").mpr hTmem)

/-- Claim C5 witness: the amended theorem instantiated on a one-row table with
a `time` column and no `datetime` column. -/
theorem claim_C5_witness :
    ∃ out, format_dataframe 4 [⟨"time", [Cell.num 0]⟩, ⟨"open", [Cell.num 1]⟩] = .ok out ∧
      nRows out = 1 ∧ out.length = 3 := by
  refine ⟨_, rfl, ?_⟩
  have h := claim_C5_amended 4 [⟨"time", [Cell.num 0]⟩, ⟨"open", [Cell.num 1]⟩] _
    (by intro c hc
        rcases List.mem_cons.mp hc with rfl | hc2
        · rfl
        rcases List.mem_cons.mp hc2 with rfl | h2
        · rfl
        · cases h2) rfl
  refine ⟨h.1.trans rfl, h.2.trans ?_⟩
  norm_num [colNames]
  decide

/-- Claim C10: the heap-level trace of `format_dataframe` leaves the caller's
DataFrame object untouched — after the call the heap still maps the input
reference to the original table — and a successful call returns a reference to
a *different* (freshly allocated) object whose value is exactly the pure
`format_dataframe` result. -/
theorem claim_C10 (dp : ℕ) (h : Heap) (dfRef : ℕ) (hlt : dfRef < h.length) :
    (format_dataframe_prog dp h dfRef).1.get? dfRef = h.get? dfRef ∧
    ∀ r, (format_dataframe_prog dp h dfRef).2 = .ok r →
      r ≠ dfRef ∧
      format_dataframe dp (readT h dfRef) = .ok (readT (format_dataframe_prog dp h dfRef).1 r) := by
  have hread1 : readT (h ++ [readT h dfRef]) h.length = readT h dfRef := by
    simp [readT, List.getD, List.get?_concat_length]
  by_cases hT : (readT h dfRef).any (fun c => c.name == "time") = true
  · simp only [format_dataframe_prog, allocT, writeT, hread1, hT, if_true]
    rcases hdt : format_datetime_column (getColCells (readT h dfRef) "time") with e | dts <;>
      simp only [hdt]
    · refine ⟨?_, ?_⟩
      · exact List.get?_append hlt
      · rintro r hr; cases hr
    · set v1 := setCol (readT h dfRef) "datetime" (dts.map Cell.text) with hv1
      have hlen1 : dfRef < (h ++ [readT h dfRef]).length := by
        simp only [List.length_append, List.length_singleton]
        omega
      have hset1 : ((h ++ [readT h dfRef]).set h.length v1).get? dfRef = h.get? dfRef := by
        rw [List.get?_set_ne _ _ (by omega)]
        exact List.get?_append hlt
      have hread2 : readT ((h ++ [readT h dfRef]).set h.length v1) h.length = v1 := by
        simp only [readT, List.getD]
        rw [List.get?_set_eq_of_lt]
        · rfl
        · simp only [List.length_append, List.length_singleton]
          omega
      simp only [hread2]
      set h2 := (h ++ [readT h dfRef]).set h.length v1 with hh2
      set v2 := moveToFront "datetime" v1 with hv2
      have hread3 : readT (h2 ++ [v2]) h2.length = v2 := by
        simp [readT, List.getD, List.get?_concat_length]
      simp only [hread3]
      have hlen2 : h2.length = h.length + 1 := by
        simp [hh2]
      refine ⟨?_, ?_⟩
      · rw [List.get?_set_ne _ _ (by omega), List.get?_append (by simp [hh2]; omega)]
        exact hset1
      · rintro r hr
        cases hr
        refine ⟨by omega, ?_⟩
        rw [format_dataframe, if_pos hT, hdt]
        have : readT ((h2 ++ [v2]).set h2.length (numericPass dp v2)) h2.length
            = numericPass dp v2 := by
          simp only [readT, List.getD]
          rw [List.get?_set_eq_of_lt]
          · rfl
          · simp only [List.length_append, List.length_singleton]
            omega
        rw [this]
  · simp only [format_dataframe_prog, allocT, writeT, hread1, hT, if_false, Bool.false_eq_true]
    have hread2 : readT ((h ++ [readT h dfRef]).set h.length (numericPass dp (readT h dfRef)))
        h.length = numericPass dp (readT h dfRef) := by
      simp only [readT, List.getD]
      rw [List.get?_set_eq_of_lt]
      · rfl
      · simp only [List.length_append, List.length_singleton]
        omega
    refine ⟨?_, ?_⟩
    · rw [List.get?_set_ne _ _ (by omega)]
      exact List.get?_append hlt
    · rintro r hr
      cases hr
      refine ⟨by omega, ?_⟩
      rw [format_dataframe, if_neg hT, hread2]

/-- Claim C10 witness: a concrete heap holding one one-column table. -/
theorem claim_C10_witness :
    (format_dataframe_prog 4 [[⟨"open", [Cell.num 1]⟩]] 0).1.get? 0
        = some [⟨"open", [Cell.num 1]⟩] ∧
    ∀ r, (format_dataframe_prog 4 [[⟨"open", [Cell.num 1]⟩]] 0).2 = .ok r → r ≠ 0 := by
  have h := claim_C10 4 [[⟨"open", [Cell.num 1]⟩]] 0 (by decide)
  exact ⟨h.1.trans rfl, fun r hr => (h.2 r hr).1⟩

/-! ### Layout lemmas -/

/-- Every `digCh` output is a decimal digit character. -/
theorem digCh_isDigit (n : ℕ) : (digCh n).isDigit = true := by
  have h : n % 10 < 10 := Nat.mod_lt _ (by norm_num)
  have key : ∀ k, k < 10 → (Char.ofNat (48 + k)).isDigit = true := by decide
  exact key _ h

/-- The rendered date-time string always has the fixed layout. -/
theorem isLayout_render (y mo d h mi s : ℕ) :
    isLayoutStr (String.mk (renderList y mo d h mi s)) = true := by
  show isLayoutChars (renderList y mo d h mi s) = true
  simp [isLayoutChars, renderList, pad4, pad2, digCh_isDigit, List.getD]

/-- A diagnostic string never has the layout (it starts with `I`). -/
theorem isLayout_diag (r : String) :
    isLayoutStr ("Invalid timestamp: " ++ r) = false := by
  have hd : ("Invalid timestamp: " ++ r).toList = 'I' :: ("nvalid timestamp: " ++ r).toList := rfl
  simp [isLayoutStr, hd, isLayoutChars, List.getD]

/-- Claim C6 counterexample: `is_valid_timestamp` probes with
`datetime.fromtimestamp(timestamp)` in the platform *local* zone while
`unix_to_datetime` converts in UTC; in a zone one hour east of UTC the last
valid UTC second 9999-12-31 23:59:59 is rejected by the validator although
`toDateTime` formats it — the two acceptance predicates differ. -/
theorem claim_C6_counterexample :
    is_valid_timestamp 3600 (.pyInt 253402300799) = .ok false ∧
    unix_to_datetime (.pyInt 253402300799) = .ok "9999-12-31 23:59:59" ∧
    isLayoutStr "9999-12-31 23:59:59" = true := ⟨rfl, rfl, rfl⟩

/-- Claim C6 (amended): when the platform local zone is UTC (offset 0), the
two operations do share one acceptance predicate: `is_valid_timestamp` returns
`true` exactly when `unix_to_datetime` returns a formatted layout string
rather than the inline diagnostic; in particular both propagate the uncaught
`OverflowError` on the same inputs. -/
theorem claim_C6_amended (v : PyVal) :
    (is_valid_timestamp 0 v = .ok true)
      ↔ ∃ s, unix_to_datetime v = .ok s ∧ isLayoutStr s = true := by
  have hr : ∀ x : DT6, isLayoutStr (renderDT6 x) = true := fun x => isLayout_render _ _ _ _ _ _
  unfold is_valid_timestamp unix_to_datetime
  rcases hcv : convertStrArg v with e | w <;> simp only [hcv]
  · rcases he : isCaughtErr e with _ | _ <;> simp [he, isLayout_diag]
  · rcases hft : fromtimestampV 0 w with e2 | x <;> simp only [hft]
    · rcases he : isCaughtErr e2 with _ | _ <;> simp [he, isLayout_diag]
    · simp [hr]

/-- Claim C3: the code intends `unix_to_datetime` never to raise — it returns
an inline `"Invalid timestamp: ..."` diagnostic for bad inputs — but the
`except (ValueError, TypeError, OSError)` clause omits `OverflowError`, which
`datetime.fromtimestamp` raises for values beyond the platform `time_t`
range.  At `10^20` the function raises instead of returning the diagnostic,
while ordinary bad inputs do degrade to the documented diagnostic. -/
theorem claim_C3_bug :
    unix_to_datetime (.pyInt (10 ^ 20)) = .error PyError.overflowError ∧
    unix_to_datetime (.pyStr "inf") = .error PyError.overflowError ∧
    unix_to_datetime (.pyStr "abc") = .ok "Invalid timestamp: abc" ∧
    unix_to_datetime .pyNone = .ok "Invalid timestamp: None" ∧
    unix_to_datetime (.pyStr "300000000000") = .ok "Invalid timestamp: 300000000000.0" :=
  ⟨rfl, rfl, rfl, rfl, rfl⟩

/-! ### Lemmas for the Column Classifier -/

/-- Boolean `contains` in terms of membership. -/
theorem contains_eq_false_iff (l : List String) (a : String) :
    l.contains a = false ↔ a ∉ l := by
  rw [← List.elem_iff]
  show l.elem a = false ↔ _
  cases h : l.elem a <;> simp [h]

/-- The claimed set after one category's pattern loop is the old claimed set
plus the newly matched columns, in order. -/
theorem claimPats_used (cols : List String) :
    ∀ (pats used : List String),
      (claimPats cols pats used).2 = used ++ (claimPats cols pats used).1 := by
  intro pats
  induction pats with
  | nil => intro used; simp [claimPats]
  | cons p ps ih =>
    intro used
    simp only [claimPats]
    rw [ih]
    simp [List.append_assoc]

/-- Membership in one category's matched columns: a table column not yet
claimed whose name matches one of the category's patterns. -/
theorem claimPats_mem (cols : List String) :
    ∀ (pats used : List String) (c : String),
      c ∈ (claimPats cols pats used).1
        ↔ c ∈ cols ∧ used.contains c = false ∧ ∃ p ∈ pats, lcEq c p = true := by
  intro pats
  induction pats with
  | nil => intro used c; simp [claimPats]
  | cons p ps ih =>
    intro used c
    simp only [claimPats, List.mem_append, List.mem_filter, ih]
    constructor
    · rintro (⟨hc, hb⟩ | ⟨hc, hnu, p2, hp2, hm⟩)
      · rcases Bool.and_eq_true_iff.mp hb with ⟨h1, h2⟩
        rw [Bool.not_eq_eq_eq_not, Bool.not_true] at h2
        exact ⟨hc, h2, p, List.mem_cons_self _ _, h1⟩
      · have hused : used.contains c = false := by
          rw [contains_eq_false_iff] at hnu ⊢
          intro hmem
          exact hnu (List.mem_append.mpr (Or.inl hmem))
        exact ⟨hc, hused, p2, List.mem_cons_of_mem _ hp2, hm⟩
    · rintro ⟨hc, hnu, p2, hp2, hm⟩
      rcases List.mem_cons.mp hp2 with rfl | hp2'
      · left
        exact ⟨hc, by rw [hm, hnu]; rfl⟩
      · by_cases hcp : lcEq c p = true
        · left
          exact ⟨hc, by rw [hcp, hnu]; rfl⟩
        · right
          refine ⟨hc, ?_, p2, hp2', hm⟩
          rw [contains_eq_false_iff]
          intro hmem
          rcases List.mem_append.mp hmem with h1 | h1
          · exact (contains_eq_false_iff _ _).mp hnu h1
          · rcases (List.mem_filter.mp h1).2 |> Bool.and_eq_true_iff.mp with ⟨h3, _⟩
            exact hcp h3

/-- The matched columns of one category are distinct and were unclaimed. -/
theorem claimPats_nodup (cols : List String) (hnd : cols.Nodup) :
    ∀ (pats used : List String), (claimPats cols pats used).1.Nodup := by
  intro pats
  induction pats with
  | nil => intro used; simp [claimPats]
  | cons p ps ih =>
    intro used
    simp only [claimPats]
    apply List.Nodup.append
    · exact hnd.filter _
    · exact ih _
    · intro c hcm hcr
      rcases (claimPats_mem cols ps (used ++ cols.filter
          (fun c => lcEq c p && !used.contains c)) c).mp hcr with ⟨_, hnu, _⟩
      rw [contains_eq_false_iff] at hnu
      exact hnu (List.mem_append.mpr (Or.inr hcm))

/-- Names collected by the category loop (no synthesized `datetime` column):
the final claimed list is the claimed input plus every name appearing in the
produced entries. -/
theorem orgAux_join_used (cols : List String) :
    ∀ (cats : List (String × List String)) (used : List String),
      (organizeNamesAux cols false cats used).2
        = used ++ ((organizeNamesAux cols false cats used).1.map Prod.snd).join := by
  intro cats
  induction cats with
  | nil => intro used; simp [organizeNamesAux]
  | cons lp cats ih =>
    rcases lp with ⟨label, pats⟩
    intro used
    simp only [organizeNamesAux]
    by_cases hm : (claimPats cols pats used).1.isEmpty
    · rw [if_pos hm]
      rw [ih, claimPats_used]
      rw [List.isEmpty_iff] at hm
      simp [hm]
    · rw [if_neg hm]
      simp only [Bool.and_false, Bool.false_eq_true, if_false, List.map_cons,
        List.flatten_cons]
      rw [ih, claimPats_used, List.append_assoc]

/-- Membership in the names collected by the category loop. -/
theorem orgAux_mem (cols : List String) :
    ∀ (cats : List (String × List String)) (used : List String) (c : String),
      (c ∈ ((organizeNamesAux cols false cats used).1.map Prod.snd).join
        ↔ c ∈ cols ∧ used.contains c = false
            ∧ ∃ lp ∈ cats, ∃ p ∈ lp.2, lcEq c p = true) := by
  intro cats
  induction cats with
  | nil => intro used c; simp [organizeNamesAux]
  | cons lp cats ih =>
    rcases lp with ⟨label, pats⟩
    intro used c
    simp only [organizeNamesAux]
    by_cases hm : (claimPats cols pats used).1.isEmpty
    · rw [if_pos hm]
      rw [List.isEmpty_iff] at hm
      rw [ih, claimPats_used, hm]
      simp only [List.append_nil]
      constructor
      · rintro ⟨hc, hnu, lp2, hlp2, hp⟩
        exact ⟨hc, hnu, lp2, List.mem_cons_of_mem _ hlp2, hp⟩
      · rintro ⟨hc, hnu, lp2, hlp2, p, hp, hmatch⟩
        rcases List.mem_cons.mp hlp2 with rfl | hlp2'
        · exfalso
          have hx : c ∈ (claimPats cols pats used).1 :=
            (claimPats_mem cols pats used c).mpr ⟨hc, hnu, p, hp, hmatch⟩
          rw [hm] at hx
          cases hx
        · exact ⟨hc, hnu, lp2, hlp2', p, hp, hmatch⟩
    · rw [if_neg hm]
      simp only [Bool.and_false, Bool.false_eq_true, if_false, List.map_cons,
        List.flatten_cons, List.mem_append]
      rw [ih, claimPats_used]
      constructor
      · rintro (hcm | ⟨hc, hnu, lp2, hlp2, hp⟩)
        · rcases (claimPats_mem cols pats used c).mp hcm with ⟨hc, hnu, p, hp, hmatch⟩
          exact ⟨hc, hnu, ⟨label, pats⟩, List.mem_cons_self _ _, p, hp, hmatch⟩
        · have hused : used.contains c = false := by
            rw [contains_eq_false_iff] at hnu ⊢
            intro h1
            exact hnu (List.mem_append.mpr (Or.inl h1))
          exact ⟨hc, hused, lp2, List.mem_cons_of_mem _ hlp2, hp⟩
      · rintro ⟨hc, hnu, lp2, hlp2, p, hp, hmatch⟩
        by_cases hcm : c ∈ (claimPats cols pats used).1
        · exact Or.inl hcm
        · rcases List.mem_cons.mp hlp2 with rfl | hlp2'
          · exact absurd ((claimPats_mem cols pats used c).mpr ⟨hc, hnu, p, hp, hmatch⟩) hcm
          · right
            refine ⟨hc, ?_, lp2, hlp2', p, hp, hmatch⟩
            rw [contains_eq_false_iff]
            intro h1
            rcases List.mem_append.mp h1 with h2 | h2
            · exact (contains_eq_false_iff _ _).mp hnu h2
            · exact hcm h2

/-- The names collected by the category loop are pairwise distinct. -/
theorem orgAux_nodup (cols : List String) (hnd : cols.Nodup) :
    ∀ (cats : List (String × List String)) (used : List String),
      (((organizeNamesAux cols false cats used).1.map Prod.snd).join).Nodup := by
  intro cats
  induction cats with
  | nil => intro used; simp [organizeNamesAux]
  | cons lp cats ih =>
    rcases lp with ⟨label, pats⟩
    intro used
    simp only [organizeNamesAux]
    by_cases hm : (claimPats cols pats used).1.isEmpty
    · rw [if_pos hm]; exact ih _
    · rw [if_neg hm]
      simp only [Bool.and_false, Bool.false_eq_true, if_false, List.map_cons,
        List.flatten_cons]
      apply List.Nodup.append
      · exact claimPats_nodup cols hnd pats used
      · exact ih _
      · intro c hcm hcr
        rcases (orgAux_mem cols cats _ c).mp hcr with ⟨_, hnu, _⟩
        rw [claimPats_used, contains_eq_false_iff] at hnu
        exact hnu (List.mem_append.mpr (Or.inr hcm))

/-- Every entry produced by the category loop is one of the declared
categories, and each of its names matches one of that category's patterns. -/
theorem orgAux_entry_patterns (cols : List String) :
    ∀ (cats : List (String × List String)) (used : List String) (l : String)
      (ms : List String), (l, ms) ∈ (organizeNamesAux cols false cats used).1 →
      ∃ ps, (l, ps) ∈ cats ∧ ∀ c ∈ ms, ∃ p ∈ ps, lcEq c p = true := by
  intro cats
  induction cats with
  | nil => intro used l ms h; simp [organizeNamesAux] at h
  | cons lp cats ih =>
    rcases lp with ⟨label, pats⟩
    intro used l ms h
    simp only [organizeNamesAux] at h
    by_cases hm : (claimPats cols pats used).1.isEmpty
    · rw [if_pos hm] at h
      rcases ih _ _ _ h with ⟨ps, hps, hall⟩
      exact ⟨ps, List.mem_cons_of_mem _ hps, hall⟩
    · rw [if_neg hm] at h
      simp only [Bool.and_false, Bool.false_eq_true, if_false] at h
      rcases List.mem_cons.mp h with heq | h'
      · cases heq
        refine ⟨pats, List.mem_cons_self _ _, ?_⟩
        intro c hc
        rcases (claimPats_mem cols pats used c).mp hc with ⟨_, _, p, hp, hmatch⟩
        exact ⟨p, hp, hmatch⟩
      · rcases ih _ _ _ h' with ⟨ps, hps, hall⟩
        exact ⟨ps, List.mem_cons_of_mem _ hps, hall⟩

/-- No table column named `datetime` can be claimed by a declared category:
`datetime` matches none of the declared patterns. -/
theorem datetime_matches_no_pattern :
    ∀ lp ∈ COLUMN_CATEGORIES, ∀ p ∈ lp.2, lcEq "datetime" p = false := by decide

/-- The declared patterns are pairwise distinct across categories
(case-insensitively), so a column name determines at most one category. -/
theorem patterns_unique_category :
    ∀ lp1 ∈ COLUMN_CATEGORIES, ∀ lp2 ∈ COLUMN_CATEGORIES, ∀ p1 ∈ lp1.2, ∀ p2 ∈ lp2.2,
      lcKey p1 = lcKey p2 → lp1.1 = lp2.1 := by decide

/-- Name-level partition property of `organize_by_category` for tables whose
column names all match known patterns. -/
theorem organize_names_partition (cols : List String) (hnd : cols.Nodup)
    (hsub : ∀ c ∈ cols, ∃ lp ∈ COLUMN_CATEGORIES, ∃ p ∈ lp.2, lcEq c p = true) :
    (((organize_names cols).map Prod.snd).join).Perm cols ∧
    ∀ l ms, (l, ms) ∈ organize_names cols →
      ∃ ps, (l, ps) ∈ COLUMN_CATEGORIES ∧ ∀ c ∈ ms, ∃ p ∈ ps, lcEq c p = true := by
  have hdt : cols.contains "datetime" = false := by
    rw [contains_eq_false_iff]
    intro hmem
    rcases hsub _ hmem with ⟨lp, hlp, p, hp, hm⟩
    rw [datetime_matches_no_pattern lp hlp p hp] at hm
    cases hm
  have hmemJ : ∀ c, c ∈ ((organizeNamesAux cols false COLUMN_CATEGORIES []).1.map
      Prod.snd).join ↔ c ∈ cols := by
    intro c
    rw [orgAux_mem]
    constructor
    · rintro ⟨hc, -, -⟩; exact hc
    · intro hc
      exact ⟨hc, rfl, hsub c hc⟩
  have hrem : cols.filter (fun c =>
      !(organizeNamesAux cols false COLUMN_CATEGORIES []).2.contains c
        && c != "datetime") = [] := by
    apply List.filter_eq_nil_iff.mpr
    intro c hc
    have hj : c ∈ (organizeNamesAux cols false COLUMN_CATEGORIES []).2 := by
      rw [orgAux_join_used]
      exact (hmemJ c).mpr hc
    have hc2 : (organizeNamesAux cols false COLUMN_CATEGORIES []).2.contains c = true :=
      List.elem_iff.mpr hj
    rw [hc2]
    simp
  have horg : organize_names cols = (organizeNamesAux cols false COLUMN_CATEGORIES []).1 := by
    rw [organize_names, hdt]
    rw [hrem]
    rfl
  rw [horg]
  constructor
  · apply List.Subperm.antisymm
    · exact (orgAux_nodup cols hnd COLUMN_CATEGORIES []).subperm
        (fun c hc => (hmemJ c).mp hc)
    · exact hnd.subperm (fun c hc => (hmemJ c).mpr hc)
  · intro l ms hmem
    exact orgAux_entry_patterns cols COLUMN_CATEGORIES [] l ms hmem

/-- Selecting columns by names that exist reproduces exactly those names. -/
theorem colNames_selectCols (df : Table) :
    ∀ ns : List String, (∀ n ∈ ns, n ∈ colNames df) →
      colNames (selectCols df ns) = ns := by
  intro ns
  induction ns with
  | nil => intro _; rfl
  | cons n ns ih =>
    intro hsub
    have hn : n ∈ colNames df := hsub n (List.mem_cons_self _ _)
    rcases hf : df.find? (fun c => c.name == n) with _ | c
    · exfalso
      rcases List.mem_map.mp hn with ⟨c0, hc0, rfl⟩
      have := List.find?_eq_none.mp hf c0 hc0
      simp at this
    · have hname : c.name = n := by
        have := List.find?_some hf
        simpa using this
      simp only [selectCols, List.filterMap_cons, hf]
      show c.name :: colNames (selectCols df ns) = n :: ns
      rw [hname, ih (fun m hm => hsub m (List.mem_cons_of_mem _ hm))]

/-- Claim C4: for a table whose column names all match known category
patterns (pairwise distinct names), the Column Classifier output is a
partition: the concatenation of all category column lists is a permutation of
the table's columns (every column exactly once, no duplicates, no omissions),
and each column is claimed by the *only* — hence the first — declared
category one of whose patterns matches it. -/
theorem claim_C4 (df : Table) (hnd : (colNames df).Nodup)
    (hsub : ∀ c ∈ colNames df, ∃ lp ∈ COLUMN_CATEGORIES, ∃ p ∈ lp.2, lcEq c p = true) :
    (((organize_by_category df).map (fun e => colNames e.2)).join).Perm (colNames df) ∧
    (∀ l sub, (l, sub) ∈ organize_by_category df → ∀ c ∈ colNames sub,
      ∀ l2 ps2, (l2, ps2) ∈ COLUMN_CATEGORIES → (∃ p ∈ ps2, lcEq c p = true) → l2 = l) := by
  obtain ⟨hperm, hentries⟩ := organize_names_partition (colNames df) hnd hsub
  have hsubcols : ∀ l ms, (l, ms) ∈ organize_names (colNames df) →
      ∀ c ∈ ms, c ∈ colNames df := by
    intro l ms hmem c hc
    refine hperm.mem_iff.mp ?_
    rw [List.mem_join]
    exact ⟨ms, List.mem_map.mpr ⟨(l, ms), hmem, rfl⟩, hc⟩
  have hnames : (organize_by_category df).map (fun e => colNames e.2)
      = (organize_names (colNames df)).map Prod.snd := by
    rw [organize_by_category, List.map_map]
    apply List.map_congr_left
    intro lp hlp
    rcases lp with ⟨l, ms⟩
    exact colNames_selectCols df ms (hsubcols l ms hlp)
  constructor
  · rw [hnames]
    exact hperm
  · intro l sub hmem c hc l2 ps2 hl2 hmatch2
    rcases List.mem_map.mp hmem with ⟨⟨l1, ms⟩, hms, heq⟩
    cases heq
    rw [colNames_selectCols df ms (hsubcols l1 ms hms)] at hc
    rcases hentries l1 ms hms with ⟨ps, hps, hall⟩
    rcases hall c hc with ⟨p, hp, hm⟩
    rcases hmatch2 with ⟨p2, hp2, hm2⟩
    have hlow : lcKey p = lcKey p2 := by
      have h1 : lcKey c = lcKey p := by
        rw [lcEq] at hm
        exact beq_iff_eq.mp hm
      have h2 : lcKey c = lcKey p2 := by
        rw [lcEq] at hm2
        exact beq_iff_eq.mp hm2
      rw [← h1, h2]
    exact (patterns_unique_category (l2, ps2) hl2 (l1, ps) hps p2 hp2 p hp hlow.symm)

/-- Claim C4 witness: a concrete table whose column names (including a
case variant `Time`) are all known patterns plus none left over. -/
theorem claim_C4_witness :
    (((organize_by_category
        [⟨"Time", [Cell.num 1]⟩, ⟨"open", [Cell.num 2]⟩, ⟨"Bullish", [Cell.num 3]⟩]).map
          (fun e => colNames e.2)).join).Perm
      (colNames [⟨"Time", [Cell.num 1]⟩, ⟨"open", [Cell.num 2]⟩, ⟨"Bullish", [Cell.num 3]⟩]) :=
  (claim_C4 _ (by decide) (by decide)).1

/-! ### Calendar correctness (round-trip of `ord2ymd` against `toOrdinalZ`) -/

/-- Arithmetic characterization of the leap-year test. -/
theorem isLeapZ_iff (y : ℤ) :
    isLeapZ y = true ↔ ((y % 4 = 0 ∧ y % 100 ≠ 0) ∨ y % 400 = 0) := by
  simp [isLeapZ, Bool.or_eq_true, Bool.and_eq_true_iff, beq_iff_eq, bne_iff_ne]

/-- Finite check of the month-estimation step over every day of a year. -/
theorem monthDay_spec_nat : ∀ (leap : Bool), ∀ k : ℕ, k < (if leap then 366 else 365) →
    1 ≤ (monthDay leap (k : ℤ)).1 ∧ (monthDay leap (k : ℤ)).1 ≤ 12 ∧
    1 ≤ (monthDay leap (k : ℤ)).2 ∧
    (monthDay leap (k : ℤ)).2 ≤ daysInMonthZ leap (monthDay leap (k : ℤ)).1 ∧
    daysBeforeMonthZ leap (monthDay leap (k : ℤ)).1 + (monthDay leap (k : ℤ)).2 = (k : ℤ) + 1 := by
  set_option maxRecDepth 4000 in decide

/-- The month estimation step of `_ord2ymd` recovers the month and day from a
0-based day of year. -/
theorem monthDay_spec (leap : Bool) (n : ℤ) (h0 : 0 ≤ n)
    (h1 : n ≤ 364 + (if leap then 1 else 0)) :
    1 ≤ (monthDay leap n).1 ∧ (monthDay leap n).1 ≤ 12 ∧
    1 ≤ (monthDay leap n).2 ∧
    (monthDay leap n).2 ≤ daysInMonthZ leap (monthDay leap n).1 ∧
    daysBeforeMonthZ leap (monthDay leap n).1 + (monthDay leap n).2 = n + 1 := by
  have hk : n = (n.toNat : ℤ) := by omega
  have hlt : n.toNat < (if leap then 366 else 365) := by
    cases leap <;> simp at h1 ⊢ <;> omega
  rw [hk]
  exact monthDay_spec_nat leap n.toNat hlt

set_option maxHeartbeats 2000000 in
/-- Round trip of CPython's `_ord2ymd` against the textbook Gregorian ordinal
`_ymd2ord`, with validity bounds, over the ordinal range of years 1..9999:
this certifies that `ord2ymd` computes the proleptic Gregorian calendar. -/
theorem ord2ymd_spec (N : ℤ) (h1 : 1 ≤ N) (h2 : N ≤ 3652059) :
    toOrdinalZ (ord2ymd N).1 (ord2ymd N).2.1 (ord2ymd N).2.2 = N ∧
    1 ≤ (ord2ymd N).1 ∧ (ord2ymd N).1 ≤ 9999 ∧
    1 ≤ (ord2ymd N).2.1 ∧ (ord2ymd N).2.1 ≤ 12 ∧
    1 ≤ (ord2ymd N).2.2 ∧
    (ord2ymd N).2.2 ≤ daysInMonthZ (isLeapZ (ord2ymd N).1) (ord2ymd N).2.1 := by
  obtain ⟨y, m, d, hymd⟩ : ∃ y m d, ord2ymd N = (y, m, d) := ⟨_, _, _, rfl⟩
  rw [hymd]
  simp only [ord2ymd] at hymd
  set n400 := (N - 1) / 146097 with hn400
  set nA := (N - 1) % 146097 with hnA
  set n100 := nA / 36524 with hn100
  set nB := nA % 36524 with hnB
  set n4 := nB / 1461 with hn4
  set nC := nB % 1461 with hnC
  set n1 := nC / 365 with hn1
  set nn := nC % 365 with hnn
  by_cases hcor : n1 = 4 ∨ n100 = 4
  · rw [if_pos hcor] at hymd
    injection hymd with e1 e23
    injection e23 with e2 e3
    subst e1; subst e2; subst e3
    have hL : isLeapZ (n400 * 400 + 1 + n100 * 100 + n4 * 4 + n1 - 1) = true := by
      rw [isLeapZ_iff]
      rcases hcor with hc | hc <;> omega
    refine ⟨?_, ?_, ?_, by norm_num, by norm_num, by norm_num, ?_⟩
    · simp only [toOrdinalZ, daysBeforeYearZ, daysBeforeMonthZ, hL]
      have hdbm : dbmBase 12 = 334 := by norm_num [dbmBase]
      split_ifs with hif
      · rcases hcor with hc | hc
        · have hj : (n400 * 400 + 1 + n100 * 100 + n4 * 4 + n1 - 1 - 1) / 4
              = 100 * n400 + 25 * n100 + n4 := by omega
          have hk : (n400 * 400 + 1 + n100 * 100 + n4 * 4 + n1 - 1 - 1) / 100
              = 4 * n400 + n100 := by omega
          have hl2 : (n400 * 400 + 1 + n100 * 100 + n4 * 4 + n1 - 1 - 1) / 400
              = n400 := by omega
          omega
        · have hj : (n400 * 400 + 1 + n100 * 100 + n4 * 4 + n1 - 1 - 1) / 4
              = 100 * n400 + 99 := by omega
          have hk : (n400 * 400 + 1 + n100 * 100 + n4 * 4 + n1 - 1 - 1) / 100
              = 4 * n400 + 3 := by omega
          have hl2 : (n400 * 400 + 1 + n100 * 100 + n4 * 4 + n1 - 1 - 1) / 400
              = n400 := by omega
          omega
      · exact absurd (by norm_num) hif
    · rcases hcor with hc | hc <;> omega
    · rcases hcor with hc | hc <;> omega
    · rw [hL]
      norm_num [daysInMonthZ]
  · rw [if_neg hcor] at hymd
    injection hymd with e1 e23
    injection e23 with e2 e3
    subst e1; subst e2; subst e3
    obtain ⟨hm1, hm2, hd1, hd2, heq⟩ :=
      monthDay_spec (n1 == 3 && (n4 != 24 || n100 == 3)) nn (by omega)
        (by split_ifs <;> omega)
    have hbr : isLeapZ (n400 * 400 + 1 + n100 * 100 + n4 * 4 + n1)
        = (n1 == 3 && (n4 != 24 || n100 == 3)) := by
      rw [Bool.eq_iff_iff, isLeapZ_iff]
      simp only [Bool.and_eq_true_iff, Bool.or_eq_true, beq_iff_eq, bne_iff_ne]
      omega
    have hj : (n400 * 400 + 1 + n100 * 100 + n4 * 4 + n1 - 1) / 4
        = 100 * n400 + 25 * n100 + n4 := by omega
    have hk : (n400 * 400 + 1 + n100 * 100 + n4 * 4 + n1 - 1) / 100
        = 4 * n400 + n100 := by omega
    have hl2 : (n400 * 400 + 1 + n100 * 100 + n4 * 4 + n1 - 1) / 400
        = n400 := by omega
    have hord : toOrdinalZ (n400 * 400 + 1 + n100 * 100 + n4 * 4 + n1)
        (monthDay (n1 == 3 && (n4 != 24 || n100 == 3)) nn).1
        (monthDay (n1 == 3 && (n4 != 24 || n100 == 3)) nn).2 = N := by
      simp only [toOrdinalZ, daysBeforeYearZ]
      rw [hbr]
      omega
    have hy2 : n400 * 400 + 1 + n100 * 100 + n4 * 4 + n1 ≤ 9999 := by
      have h' := hord
      simp only [toOrdinalZ, daysBeforeYearZ] at h'
      rw [hbr] at h'
      omega
    exact ⟨hord, by omega, hy2, hm1, hm2, hd1, by rw [hbr]; exact hd2⟩

/-- Finite check: days-before-month is nonnegative. -/
theorem dbm_nonneg_nat : ∀ (L : Bool), ∀ k : ℕ, k < 12 →
    0 ≤ daysBeforeMonthZ L ((k : ℤ) + 1) := by decide

/-- Days-before-month is nonnegative for valid months. -/
theorem dbm_nonneg (L : Bool) (m : ℤ) (h1 : 1 ≤ m) (h2 : m ≤ 12) :
    0 ≤ daysBeforeMonthZ L m := by
  have hk : m = ((m.toNat - 1 : ℕ) : ℤ) + 1 := by omega
  rw [hk]
  exact dbm_nonneg_nat L (m.toNat - 1) (by omega)

/-- Finite check: a valid day offset within a month stays within the year. -/
theorem dbm_add_dim_le_nat : ∀ (L : Bool), ∀ k : ℕ, k < 12 →
    daysBeforeMonthZ L ((k : ℤ) + 1) + daysInMonthZ L ((k : ℤ) + 1)
      ≤ 365 + (if L = true then 1 else 0) := by decide

/-- A valid day offset within a month stays within the year. -/
theorem dbm_add_dim_le (L : Bool) (m : ℤ) (h1 : 1 ≤ m) (h2 : m ≤ 12) :
    daysBeforeMonthZ L m + daysInMonthZ L m ≤ 365 + (if L = true then 1 else 0) := by
  have hk : m = ((m.toNat - 1 : ℕ) : ℤ) + 1 := by omega
  rw [hk]
  exact dbm_add_dim_le_nat L (m.toNat - 1) (by omega)

/-- Finite check: a full earlier month ends before a later month starts. -/
theorem dbm_mono_nat : ∀ (L : Bool), ∀ k1 : ℕ, k1 < 12 → ∀ k2 : ℕ, k2 < 12 → k1 < k2 →
    daysBeforeMonthZ L ((k1 : ℤ) + 1) + daysInMonthZ L ((k1 : ℤ) + 1)
      ≤ daysBeforeMonthZ L ((k2 : ℤ) + 1) := by decide

/-- Cumulative consistency of the month tables. -/
theorem dbm_mono (L : Bool) (m1 m2 : ℤ) (h1 : 1 ≤ m1) (h12 : m1 < m2) (h2 : m2 ≤ 12) :
    daysBeforeMonthZ L m1 + daysInMonthZ L m1 ≤ daysBeforeMonthZ L m2 := by
  have hk1 : m1 = ((m1.toNat - 1 : ℕ) : ℤ) + 1 := by omega
  have hk2 : m2 = ((m2.toNat - 1 : ℕ) : ℤ) + 1 := by omega
  rw [hk1, hk2]
  exact dbm_mono_nat L (m1.toNat - 1) (by omega) (m2.toNat - 1) (by omega) (by omega)

/-- One more year adds 365 or 366 days. -/
theorem dby_succ (y : ℤ) : daysBeforeYearZ (y + 1)
    = daysBeforeYearZ y + 365 + (if isLeapZ y = true then 1 else 0) := by
  by_cases h : isLeapZ y = true
  · rw [if_pos h]
    rw [isLeapZ_iff] at h
    simp only [daysBeforeYearZ]
    omega
  · rw [if_neg h]
    have h' : ¬((y % 4 = 0 ∧ y % 100 ≠ 0) ∨ y % 400 = 0) :=
      fun hc => h ((isLeapZ_iff y).mpr hc)
    simp only [daysBeforeYearZ]
    omega

/-- Days-before-year is monotone. -/
theorem dby_mono {a b : ℤ} (h : a ≤ b) : daysBeforeYearZ a ≤ daysBeforeYearZ b := by
  simp only [daysBeforeYearZ]
  omega

/-- The Gregorian ordinal is strictly monotone in the lexicographic order of
valid dates. -/
theorem toOrdinalZ_lt {y1 m1 d1 y2 m2 d2 : ℤ}
    (hm1a : 1 ≤ m1) (hm1b : m1 ≤ 12) (_hd1a : 1 ≤ d1)
    (hd1b : d1 ≤ daysInMonthZ (isLeapZ y1) m1)
    (hm2a : 1 ≤ m2) (hm2b : m2 ≤ 12) (hd2a : 1 ≤ d2)
    (hlex : y1 < y2 ∨ (y1 = y2 ∧ (m1 < m2 ∨ (m1 = m2 ∧ d1 < d2)))) :
    toOrdinalZ y1 m1 d1 < toOrdinalZ y2 m2 d2 := by
  rcases hlex with hy | ⟨rfl, hm | ⟨rfl, hd⟩⟩
  · have h1 := dbm_add_dim_le (isLeapZ y1) m1 hm1a hm1b
    have h2 := dbm_nonneg (isLeapZ y2) m2 hm2a hm2b
    have h3 := dby_succ y1
    have h4 := dby_mono (show y1 + 1 ≤ y2 by omega)
    simp only [toOrdinalZ]
    omega
  · have h1 := dbm_mono (isLeapZ y1) m1 m2 hm1a hm hm2b
    simp only [toOrdinalZ]
    omega
  · simp only [toOrdinalZ]
    omega

/-! ### Lexicographic monotonicity of the fixed-layout rendering -/

/-- Digit characters compare like their digits. -/
theorem digCh_lt {a b : ℕ} (h : a % 10 < b % 10) : digCh a < digCh b := by
  have key : ∀ x : ℕ, x < 10 → ∀ y : ℕ, y < 10 → x < y →
      Char.ofNat (48 + x) < Char.ofNat (48 + y) := by decide
  exact key (a % 10) (by omega) (b % 10) (by omega) h

/-- Digit characters agree on equal digits. -/
theorem digCh_congr {a b : ℕ} (h : a % 10 = b % 10) : digCh a = digCh b := by
  unfold digCh
  rw [h]

/-- A common prefix preserves lexicographic order. -/
theorem lex_append_left (xs : List Char) {as bs : List Char}
    (h : List.Lex (· < ·) as bs) : List.Lex (· < ·) (xs ++ as) (xs ++ bs) := by
  induction xs with
  | nil => exact h
  | cons x xs ih => exact List.Lex.cons ih

/-- Strict order on equal-length lists survives appending arbitrary tails. -/
theorem lex_append_both {as : List Char} : ∀ {bs x y : List Char},
    as.length = bs.length → List.Lex (· < ·) as bs →
    List.Lex (· < ·) (as ++ x) (bs ++ y) := by
  induction as with
  | nil =>
    intro bs x y hlen h
    cases h
    simp at hlen
  | cons a as ih =>
    intro bs x y hlen h
    cases bs with
    | nil => cases h
    | cons b bs =>
      cases h with
      | rel hr => exact List.Lex.rel hr
      | cons h' => exact List.Lex.cons (ih (by simpa using hlen) h')

/-- Two-digit zero-padded rendering is order-preserving. -/
theorem pad2_lt {a b : ℕ} (ha : a < 100) (hb : b < 100) (h : a < b) :
    List.Lex (· < ·) (pad2 a) (pad2 b) := by
  unfold pad2
  rcases Nat.lt_trichotomy (a / 10) (b / 10) with h1 | h1 | h1
  · exact List.Lex.rel (digCh_lt (by omega))
  · rw [digCh_congr (show (a / 10) % 10 = (b / 10) % 10 by omega)]
    exact List.Lex.cons (List.Lex.rel (digCh_lt (by omega)))
  · omega

/-- Four-digit zero-padded rendering is order-preserving. -/
theorem pad4_lt {a b : ℕ} (ha : a < 10000) (hb : b < 10000) (h : a < b) :
    List.Lex (· < ·) (pad4 a) (pad4 b) := by
  unfold pad4
  rcases Nat.lt_trichotomy (a / 1000) (b / 1000) with h1 | h1 | h1
  · exact List.Lex.rel (digCh_lt (by omega))
  · rw [digCh_congr (show (a / 1000) % 10 = (b / 1000) % 10 by omega)]
    apply List.Lex.cons
    rcases Nat.lt_trichotomy (a / 100) (b / 100) with h2 | h2 | h2
    · exact List.Lex.rel (digCh_lt (by omega))
    · rw [digCh_congr (show (a / 100) % 10 = (b / 100) % 10 by omega)]
      apply List.Lex.cons
      rcases Nat.lt_trichotomy (a / 10) (b / 10) with h3 | h3 | h3
      · exact List.Lex.rel (digCh_lt (by omega))
      · rw [digCh_congr (show (a / 10) % 10 = (b / 10) % 10 by omega)]
        exact List.Lex.cons (List.Lex.rel (digCh_lt (by omega)))
      · omega
    · omega
  · omega

/-- The full 19-character layout is order-preserving in the field tuple. -/
theorem renderList_lt {y1 mo1 d1 h1 mi1 s1 y2 mo2 d2 h2 mi2 s2 : ℕ}
    (hy1 : y1 < 10000) (hy2 : y2 < 10000) (hmo1 : mo1 < 100) (hmo2 : mo2 < 100)
    (hd1 : d1 < 100) (hd2 : d2 < 100) (hh1 : h1 < 100) (hh2 : h2 < 100)
    (hmi1 : mi1 < 100) (hmi2 : mi2 < 100) (hs1 : s1 < 100) (hs2 : s2 < 100)
    (hlex : y1 < y2 ∨ (y1 = y2 ∧ (mo1 < mo2 ∨ (mo1 = mo2 ∧ (d1 < d2 ∨ (d1 = d2 ∧
      (h1 < h2 ∨ (h1 = h2 ∧ (mi1 < mi2 ∨ (mi1 = mi2 ∧ s1 < s2)))))))))) :
    List.Lex (· < ·) (renderList y1 mo1 d1 h1 mi1 s1) (renderList y2 mo2 d2 h2 mi2 s2) := by
  unfold renderList
  rcases hlex with hy | ⟨rfl, hmo | ⟨rfl, hd | ⟨rfl, hh | ⟨rfl, hmi | ⟨rfl, hs⟩⟩⟩⟩⟩
  · exact lex_append_both rfl (pad4_lt hy1 hy2 hy)
  · apply lex_append_left
    apply List.Lex.cons
    exact lex_append_both rfl (pad2_lt hmo1 hmo2 hmo)
  · apply lex_append_left
    apply List.Lex.cons
    apply lex_append_left
    apply List.Lex.cons
    exact lex_append_both rfl (pad2_lt hd1 hd2 hd)
  · apply lex_append_left
    apply List.Lex.cons
    apply lex_append_left
    apply List.Lex.cons
    apply lex_append_left
    apply List.Lex.cons
    exact lex_append_both rfl (pad2_lt hh1 hh2 hh)
  · apply lex_append_left
    apply List.Lex.cons
    apply lex_append_left
    apply List.Lex.cons
    apply lex_append_left
    apply List.Lex.cons
    apply lex_append_left
    apply List.Lex.cons
    exact lex_append_both rfl (pad2_lt hmi1 hmi2 hmi)
  · apply lex_append_left
    apply List.Lex.cons
    apply lex_append_left
    apply List.Lex.cons
    apply lex_append_left
    apply List.Lex.cons
    apply lex_append_left
    apply List.Lex.cons
    apply lex_append_left
    apply List.Lex.cons
    exact pad2_lt hs1 hs2 hs

/-- Rendered date-times are ordered like their field tuples. -/
theorem renderDT_le {y1 mo1 d1 h1 mi1 s1 y2 mo2 d2 h2 mi2 s2 : ℤ}
    (hy1a : 0 ≤ y1) (hy1b : y1 ≤ 9999) (hy2a : 0 ≤ y2) (hy2b : y2 ≤ 9999)
    (hmo1 : 0 ≤ mo1 ∧ mo1 ≤ 12) (hmo2 : 0 ≤ mo2 ∧ mo2 ≤ 12)
    (hd1 : 0 ≤ d1 ∧ d1 ≤ 31) (hd2 : 0 ≤ d2 ∧ d2 ≤ 31)
    (hh1 : 0 ≤ h1 ∧ h1 ≤ 23) (hh2 : 0 ≤ h2 ∧ h2 ≤ 23)
    (hmi1 : 0 ≤ mi1 ∧ mi1 ≤ 59) (hmi2 : 0 ≤ mi2 ∧ mi2 ≤ 59)
    (hs1 : 0 ≤ s1 ∧ s1 ≤ 59) (hs2 : 0 ≤ s2 ∧ s2 ≤ 59)
    (hlex : (y1 < y2 ∨ (y1 = y2 ∧ (mo1 < mo2 ∨ (mo1 = mo2 ∧ (d1 < d2 ∨ (d1 = d2 ∧
      (h1 < h2 ∨ (h1 = h2 ∧ (mi1 < mi2 ∨ (mi1 = mi2 ∧ s1 < s2))))))))))
      ∨ (y1 = y2 ∧ mo1 = mo2 ∧ d1 = d2 ∧ h1 = h2 ∧ mi1 = mi2 ∧ s1 = s2)) :
    renderDT6 ⟨y1, mo1, d1, h1, mi1, s1⟩ ≤ renderDT6 ⟨y2, mo2, d2, h2, mi2, s2⟩ := by
  rcases hlex with hstrict | ⟨rfl, rfl, rfl, rfl, rfl, rfl⟩
  · apply le_of_lt
    rw [String.lt_iff_toList_lt]
    show List.Lex (· < ·)
      (renderList y1.toNat mo1.toNat d1.toNat h1.toNat mi1.toNat s1.toNat)
      (renderList y2.toNat mo2.toNat d2.toNat h2.toNat mi2.toNat s2.toNat)
    have hlexN : y1.toNat < y2.toNat ∨ (y1.toNat = y2.toNat ∧ (mo1.toNat < mo2.toNat ∨
        (mo1.toNat = mo2.toNat ∧ (d1.toNat < d2.toNat ∨ (d1.toNat = d2.toNat ∧
        (h1.toNat < h2.toNat ∨ (h1.toNat = h2.toNat ∧ (mi1.toNat < mi2.toNat ∨
        (mi1.toNat = mi2.toNat ∧ s1.toNat < s2.toNat))))))))) := by
      rcases hstrict with hy | ⟨he1, hmo | ⟨he2, hd | ⟨he3, hh | ⟨he4, hmi | ⟨he5, hs⟩⟩⟩⟩⟩
      · exact Or.inl (by omega)
      · exact Or.inr ⟨by omega, Or.inl (by omega)⟩
      · exact Or.inr ⟨by omega, Or.inr ⟨by omega, Or.inl (by omega)⟩⟩
      · exact Or.inr ⟨by omega, Or.inr ⟨by omega, Or.inr ⟨by omega, Or.inl (by omega)⟩⟩⟩
      · exact Or.inr ⟨by omega, Or.inr ⟨by omega, Or.inr ⟨by omega,
          Or.inr ⟨by omega, Or.inl (by omega)⟩⟩⟩⟩
      · exact Or.inr ⟨by omega, Or.inr ⟨by omega, Or.inr ⟨by omega,
          Or.inr ⟨by omega, Or.inr ⟨by omega, by omega⟩⟩⟩⟩⟩
    exact renderList_lt (by omega) (by omega) (by omega) (by omega) (by omega) (by omega)
      (by omega) (by omega) (by omega) (by omega) (by omega) (by omega) hlexN
  · exact le_refl _

/-! ### Evaluation and monotonicity of `unix_to_datetime` on integers -/

/-- A month never has more than 31 days. -/
theorem dim_le (L : Bool) (m : ℤ) : daysInMonthZ L m ≤ 31 := by
  unfold daysInMonthZ
  split_ifs <;> omega

/-- On an integer timestamp in the representable range, `unix_to_datetime`
succeeds and returns the rendering of the civil date-time of `t` seconds past
the epoch. -/
theorem udt_int_eval (t : ℤ) (hlo : -62135596800 ≤ t) (hhi : t ≤ 253402300799) :
    unix_to_datetime (.pyInt t) = .ok (renderDT6 ⟨(ord2ymd (t / 86400 + 719163)).1,
      (ord2ymd (t / 86400 + 719163)).2.1, (ord2ymd (t / 86400 + 719163)).2.2,
      t % 86400 / 3600, t % 86400 % 3600 / 60, t % 86400 % 60⟩) := by
  obtain ⟨ho1, hy1a, hy1b, hrest⟩ := ord2ymd_spec (t / 86400 + 719163) (by omega) (by omega)
  simp only [unix_to_datetime, convertStrArg, fromtimestampV, fromtimestampCore,
    civilFromDays, Int.floor_intCast, timeTMin, timeTMax, add_zero]
  rw [if_neg (by omega), if_pos ⟨hy1a, hy1b⟩]

/-- Strictly larger ordinals give strictly lexicographically larger dates under
`ord2ymd`. -/
theorem ord2ymd_lex {N1 N2 : ℤ} (h1 : 1 ≤ N1) (hlt : N1 < N2) (h2 : N2 ≤ 3652059) :
    (ord2ymd N1).1 < (ord2ymd N2).1 ∨ ((ord2ymd N1).1 = (ord2ymd N2).1 ∧
      ((ord2ymd N1).2.1 < (ord2ymd N2).2.1 ∨ ((ord2ymd N1).2.1 = (ord2ymd N2).2.1 ∧
        (ord2ymd N1).2.2 < (ord2ymd N2).2.2))) := by
  obtain ⟨ho1, hy1a, hy1b, hm1a, hm1b, hd1a, hd1b⟩ := ord2ymd_spec N1 h1 (by omega)
  obtain ⟨ho2, hy2a, hy2b, hm2a, hm2b, hd2a, hd2b⟩ := ord2ymd_spec N2 (by omega) h2
  rcases lt_trichotomy (ord2ymd N1).1 (ord2ymd N2).1 with hy | hy | hy
  · exact Or.inl hy
  · rcases lt_trichotomy (ord2ymd N1).2.1 (ord2ymd N2).2.1 with hm | hm | hm
    · exact Or.inr ⟨hy, Or.inl hm⟩
    · rcases lt_trichotomy (ord2ymd N1).2.2 (ord2ymd N2).2.2 with hd | hd | hd
      · exact Or.inr ⟨hy, Or.inr ⟨hm, hd⟩⟩
      · exfalso
        rw [← ho1, ← ho2, hy, hm, hd] at hlt
        exact lt_irrefl _ hlt
      · exfalso
        have := toOrdinalZ_lt hm2a hm2b hd2a hd2b hm1a hm1b hd1a
          (Or.inr ⟨hy.symm, Or.inr ⟨hm.symm, hd⟩⟩)
        rw [ho1, ho2] at this
        omega
    · exfalso
      have := toOrdinalZ_lt hm2a hm2b hd2a hd2b hm1a hm1b hd1a
        (Or.inr ⟨hy.symm, Or.inl hm⟩)
      rw [ho1, ho2] at this
      omega
  · exfalso
    have := toOrdinalZ_lt hm2a hm2b hd2a hd2b hm1a hm1b hd1a (Or.inl hy)
    rw [ho1, ho2] at this
    omega

set_option maxHeartbeats 1000000 in
/-- C9: for all valid epoch-seconds values (integers whose UTC civil date falls
in years 1–9999), `unix_to_datetime` succeeds with a string in the fixed
`YYYY-MM-DD HH:MM:SS` layout, and the map is monotone: `t1 ≤ t2` gives
lexicographically ordered strings. -/
theorem claim_C9 (t1 t2 : ℤ) (hlo : -62135596800 ≤ t1) (h12 : t1 ≤ t2)
    (hhi : t2 ≤ 253402300799) :
    ∃ s1 s2, unix_to_datetime (.pyInt t1) = .ok s1 ∧
      unix_to_datetime (.pyInt t2) = .ok s2 ∧
      isLayoutStr s1 = true ∧ isLayoutStr s2 = true ∧ s1 ≤ s2 := by
  refine ⟨_, _, udt_int_eval t1 hlo (by omega), udt_int_eval t2 (by omega) hhi,
    isLayout_render _ _ _ _ _ _, isLayout_render _ _ _ _ _ _, ?_⟩
  obtain ⟨ho1, hy1a, hy1b, hm1a, hm1b, hd1a, hd1b⟩ :=
    ord2ymd_spec (t1 / 86400 + 719163) (by omega) (by omega)
  obtain ⟨ho2, hy2a, hy2b, hm2a, hm2b, hd2a, hd2b⟩ :=
    ord2ymd_spec (t2 / 86400 + 719163) (by omega) (by omega)
  have hdim1 := dim_le (isLeapZ (ord2ymd (t1 / 86400 + 719163)).1)
    (ord2ymd (t1 / 86400 + 719163)).2.1
  have hdim2 := dim_le (isLeapZ (ord2ymd (t2 / 86400 + 719163)).1)
    (ord2ymd (t2 / 86400 + 719163)).2.1
  have hlexF : ((ord2ymd (t1 / 86400 + 719163)).1 < (ord2ymd (t2 / 86400 + 719163)).1 ∨
      ((ord2ymd (t1 / 86400 + 719163)).1 = (ord2ymd (t2 / 86400 + 719163)).1 ∧
      ((ord2ymd (t1 / 86400 + 719163)).2.1 < (ord2ymd (t2 / 86400 + 719163)).2.1 ∨
      ((ord2ymd (t1 / 86400 + 719163)).2.1 = (ord2ymd (t2 / 86400 + 719163)).2.1 ∧
      ((ord2ymd (t1 / 86400 + 719163)).2.2 < (ord2ymd (t2 / 86400 + 719163)).2.2 ∨
      ((ord2ymd (t1 / 86400 + 719163)).2.2 = (ord2ymd (t2 / 86400 + 719163)).2.2 ∧
      (t1 % 86400 / 3600 < t2 % 86400 / 3600 ∨
      (t1 % 86400 / 3600 = t2 % 86400 / 3600 ∧
      (t1 % 86400 % 3600 / 60 < t2 % 86400 % 3600 / 60 ∨
      (t1 % 86400 % 3600 / 60 = t2 % 86400 % 3600 / 60 ∧
      t1 % 86400 % 60 < t2 % 86400 % 60))))))))))
      ∨ ((ord2ymd (t1 / 86400 + 719163)).1 = (ord2ymd (t2 / 86400 + 719163)).1 ∧
        (ord2ymd (t1 / 86400 + 719163)).2.1 = (ord2ymd (t2 / 86400 + 719163)).2.1 ∧
        (ord2ymd (t1 / 86400 + 719163)).2.2 = (ord2ymd (t2 / 86400 + 719163)).2.2 ∧
        t1 % 86400 / 3600 = t2 % 86400 / 3600 ∧
        t1 % 86400 % 3600 / 60 = t2 % 86400 % 3600 / 60 ∧
        t1 % 86400 % 60 = t2 % 86400 % 60) := by
    rcases eq_or_lt_of_le h12 with heq | hlt
    · subst heq
      exact Or.inr ⟨rfl, rfl, rfl, rfl, rfl, rfl⟩
    · have hz : t1 / 86400 < t2 / 86400 ∨
          (t1 / 86400 = t2 / 86400 ∧ t1 % 86400 < t2 % 86400) := by omega
      rcases hz with hz | ⟨hz, hsod⟩
      · have hdl := ord2ymd_lex (show (1:ℤ) ≤ t1 / 86400 + 719163 by omega)
          (show t1 / 86400 + 719163 < t2 / 86400 + 719163 by omega)
          (show t2 / 86400 + 719163 ≤ 3652059 by omega)
        left
        rcases hdl with h | ⟨he, h | ⟨he2, h⟩⟩
        · exact Or.inl h
        · exact Or.inr ⟨he, Or.inl h⟩
        · exact Or.inr ⟨he, Or.inr ⟨he2, Or.inl h⟩⟩
      · have hNe : t1 / 86400 + 719163 = t2 / 86400 + 719163 := by omega
        have hdeq : ord2ymd (t1 / 86400 + 719163) = ord2ymd (t2 / 86400 + 719163) := by
          rw [hNe]
        left
        refine Or.inr ⟨by rw [hdeq], Or.inr ⟨by rw [hdeq], Or.inr ⟨by rw [hdeq], ?_⟩⟩⟩
        set a1 := t1 % 86400 with ha1
        set a2 := t2 % 86400 with ha2
        set b1 := a1 % 3600 with hb1
        set b2 := a2 % 3600 with hb2
        rcases lt_trichotomy (a1 / 3600) (a2 / 3600) with hh | hh | hh
        · exact Or.inl hh
        · rcases lt_trichotomy (b1 / 60) (b2 / 60) with hm | hm | hm
          · exact Or.inr ⟨hh, Or.inl hm⟩
          · exact Or.inr ⟨hh, Or.inr ⟨hm, by omega⟩⟩
          · omega
        · omega
  exact renderDT_le (by omega) (by omega) (by omega) (by omega) ⟨by omega, by omega⟩
    ⟨by omega, by omega⟩ ⟨by omega, by omega⟩ ⟨by omega, by omega⟩ ⟨by omega, by omega⟩
    ⟨by omega, by omega⟩ ⟨by omega, by omega⟩ ⟨by omega, by omega⟩ ⟨by omega, by omega⟩
    ⟨by omega, by omega⟩ hlexF

/-- The C9 theorem applies at the concrete timestamps 0 and 1754179200. -/
theorem claim_C9_witness :
    (-62135596800 ≤ (0:ℤ) ∧ (0:ℤ) ≤ 1754179200 ∧ (1754179200:ℤ) ≤ 253402300799) ∧
    (∃ s1 s2, unix_to_datetime (.pyInt 0) = .ok s1 ∧
      unix_to_datetime (.pyInt 1754179200) = .ok s2 ∧
      isLayoutStr s1 = true ∧ isLayoutStr s2 = true ∧ s1 ≤ s2) :=
  ⟨⟨by norm_num, by norm_num, by norm_num⟩,
    claim_C9 0 1754179200 (by norm_num) (by norm_num) (by norm_num)⟩
